import Mathlib

/-!
Verification development for the stableSquirrel ingest-to-transcription
pipeline.  The Python source is embedded shallowly: pure fragments become
Lean functions, byte strings become lists of `Nat` values below 256,
stateful code becomes explicit state passing, and fallible code returns
`Except`.  Each embedded definition is named after the Python function or
class it translates.
-/

namespace StableSquirrel

/-! Shared byte-string and character-list utilities.  These translate the
Python `bytes` and `str` primitives used by the source. -/

abbrev Byte := Nat

/-- Python `sub in s` begins by testing a prefix; `isPrefixB sub l` is true
when `sub` is an initial segment of `l`. -/
def isPrefixB [DecidableEq α] : List α → List α → Bool
  | [], _ => true
  | _ :: _, [] => false
  | a :: as, b :: bs => if a = b then isPrefixB as bs else false

/-- Python containment test `sub in s` for byte or character sequences:
true when `sub` occurs contiguously inside `l` (the empty sequence is
contained in everything). -/
def containsSub [DecidableEq α] (sub : List α) : List α → Bool
  | [] => sub.isEmpty
  | a :: rest => isPrefixB sub (a :: rest) || containsSub sub rest

/-- Bytes of an ASCII string literal. -/
def strBytes (s : String) : List Byte := s.data.map Char.toNat

/-- Python `bytes.lower`: fold the ASCII uppercase range onto lowercase. -/
def lowerByte (b : Byte) : Byte := if 65 ≤ b ∧ b ≤ 90 then b + 32 else b

/-- Python `str.lower` on the ASCII range the contract uses. -/
def lowerChar (c : Char) : Char :=
  if 65 ≤ c.toNat ∧ c.toNat ≤ 90 then Char.ofNat (c.toNat + 32) else c

/-- Python `str.lower` on a string. -/
def pyLower (s : String) : String := String.mk (s.data.map lowerChar)

/-- Index of the last occurrence of a character, used to translate
`str.rfind` inside the CPython `pathlib` suffix computation. -/
def lastIndexOf (c : Char) : List Char → Option Nat
  | [] => none
  | a :: rest =>
    match lastIndexOf c rest with
    | some i => some (i + 1)
    | none => if a = c then some 0 else none

/-- CPython `PurePath(name).suffix`: the extension of the final component,
nonempty exactly when the last dot sits strictly inside the name.  The
filenames reaching this call in the source contain no path separators. -/
def pathSuffix (s : String) : String :=
  let cs := s.data
  match lastIndexOf '.' cs with
  | none => ""
  | some i => if 0 < i ∧ i + 1 < cs.length then String.mk (cs.drop i) else ""

/-! Embedding of `stable_squirrel/security/upload_validation.py`. -/

/-- `SecurityConfig` from `upload_validation.py`, with its field defaults. -/
structure SecurityConfig where
  max_file_size : Nat := 100 * 1024 * 1024
  min_file_size : Nat := 1024
  allowed_mime_types : List String := ["audio/mpeg", "audio/mp3"]
  allowed_extensions : List String := [".mp3"]
  require_valid_audio_header : Bool := true
  scan_for_malicious_content : Bool := true
  max_uploads_per_minute : Nat := 10
  max_uploads_per_hour : Nat := 100

/-- The default `SecurityConfig()`. -/
def defaultSecurityConfig : SecurityConfig := {}

/-- The uploaded-file view the validator consumes: `filename` and
`content_type` may be absent (Python `None`), `size` is the `size`
attribute, `content` the bytes returned by `read()`. -/
structure UploadFile where
  filename : Option String
  content_type : Option String
  size : Nat
  content : List Byte

/-- The distinct `ValidationError` messages raised by
`AudioFileValidator`, one constructor per `raise` site. -/
inductive ValidationError where
  | rate_limit_hour
  | rate_limit_minute
  | no_filename
  | dangerous_pattern (pattern : String)
  | bad_extension (ext : String)
  | bad_content_type (ct : String)
  | too_small (size : Nat)
  | too_large (size : Nat)
  | empty_content
  | header_too_small
  | invalid_mp3_header
  | unsupported_format (ext : String)
  | executable_detected
  | java_class_detected
  | pdf_detected
  | script_detected
deriving DecidableEq

/-- The `dangerous_patterns` list of `_validate_file_basics`, in source
order. -/
def dangerous_patterns : List String :=
  ["..", "/", "\\", ":", "*", "?", "\"", "<", ">", "|",
   ".exe", ".bat", ".cmd", ".scr", ".pif", ".com"]

/-- Python truthiness of an optional string: `None` and the empty string
are falsy. -/
def optStrTruthy : Option String → Bool
  | none => false
  | some s => !(s = "")

/-- Python `a or b` on an optional string with a string default. -/
def pyOrStr (a : Option String) (b : String) : String :=
  match a with
  | none => b
  | some s => if s = "" then b else s

/-- `AudioFileValidator._check_rate_limits`: drop timestamps older than an
hour, then test the hourly and the per-minute window.  On success the
cleaned timestamp list (the mutated tracking entry) is returned. -/
def check_rate_limits (cfg : SecurityConfig) (tracking : List Int)
    (now : Int) : Except ValidationError (List Int) :=
  let uploads := tracking.filter (fun ts => now - ts < 3600)
  if cfg.max_uploads_per_hour ≤ uploads.length then
    .error .rate_limit_hour
  else
    let recent := uploads.filter (fun ts => now - ts < 60)
    if cfg.max_uploads_per_minute ≤ recent.length then
      .error .rate_limit_minute
    else
      .ok uploads

/-- `AudioFileValidator._validate_file_basics`: filename present, free of
dangerous patterns (first match reported), and with an allowed
extension. -/
def validate_file_basics (cfg : SecurityConfig) (file : UploadFile) :
    Except ValidationError Unit :=
  if optStrTruthy file.filename = false then .error .no_filename
  else
    let filename := pyLower (pyOrStr file.filename "")
    match dangerous_patterns.find? (fun p => containsSub p.data filename.data) with
    | some p => .error (.dangerous_pattern p)
    | none =>
      let ext := pathSuffix filename
      if cfg.allowed_extensions.contains ext then .ok ()
      else .error (.bad_extension ext)

/-- Python `mimetypes.guess_type` restricted to the audio extensions the
validator can meet; other extensions yield no guess. -/
def mimetypes_guess_type (filename : String) : Option String :=
  let ext := pathSuffix (pyLower filename)
  if ext = ".mp3" then some "audio/mpeg"
  else if ext = ".wav" then some "audio/x-wav"
  else if ext = ".m4a" then some "audio/mp4"
  else none

/-- `AudioFileValidator._validate_content_type`: a truthy declared type
outside the allow-list is saved only by an allow-listed guess from the
filename. -/
def validate_content_type (cfg : SecurityConfig) (file : UploadFile) :
    Except ValidationError Unit :=
  match file.content_type with
  | none => .ok ()
  | some ct =>
    if ct = "" then .ok ()
    else if cfg.allowed_mime_types.contains ct then .ok ()
    else
      let guessedOk :=
        if optStrTruthy file.filename then
          match mimetypes_guess_type (pyOrStr file.filename "") with
          | some g => cfg.allowed_mime_types.contains g
          | none => false
        else false
      if guessedOk then .ok () else .error (.bad_content_type ct)

/-- The size `_validate_file_size` measures: the truthy `size` attribute,
otherwise the seek-to-end byte count of the content. -/
def effectiveSize (file : UploadFile) : Nat :=
  if file.size = 0 then file.content.length else file.size

/-- `AudioFileValidator._validate_file_size` on the measured size. -/
def validate_file_size (cfg : SecurityConfig) (size : Nat) :
    Except ValidationError Unit :=
  if size < cfg.min_file_size then .error (.too_small size)
  else if cfg.max_file_size < size then .error (.too_large size)
  else .ok ()

/-- `AudioFileValidator._scan_malicious_content`: executable, JVM class and
PDF headers at the start, then script markers in the case-folded first 64
bytes; under 16 bytes nothing is scanned. -/
def scan_malicious_content (content : List Byte) :
    Except ValidationError Unit :=
  if content.length < 16 then .ok ()
  else if isPrefixB (0x7f :: strBytes "ELF") content then .error .executable_detected
  else if isPrefixB [0xca, 0xfe, 0xba, 0xbe] content then .error .java_class_detected
  else if isPrefixB (strBytes "%PDF") content then .error .pdf_detected
  else
    let headerCheck := (content.take 64).map lowerByte
    if containsSub (strBytes "<script") headerCheck ||
        containsSub (strBytes "javascript:") headerCheck then
      .error .script_detected
    else .ok ()

/-- `AudioFileValidator._check_audio_headers`: at least 12 bytes, and for
an `.mp3` name an `ID3` tag or an MP3 frame-sync header; any other
extension is rejected outright. -/
def check_audio_headers (content : List Byte) (filename : String) :
    Except ValidationError Unit :=
  if content.length < 12 then .error .header_too_small
  else
    let ext := pyLower (pathSuffix filename)
    if ext = ".mp3" then
      if isPrefixB (strBytes "ID3") content ||
          isPrefixB [0xff, 0xfb] content ||
          isPrefixB [0xff, 0xfa] content then .ok ()
      else .error .invalid_mp3_header
    else .error (.unsupported_format ext)

/-- `AudioFileValidator._validate_file_content`: reject empty content,
then scan for malicious content first (the source comment marks this as
the security priority), then check the audio header. -/
def validate_file_content (cfg : SecurityConfig) (file : UploadFile) :
    Except ValidationError Unit :=
  let content := file.content
  if content.isEmpty then .error .empty_content
  else
    match (if cfg.scan_for_malicious_content then
            scan_malicious_content content else .ok ()) with
    | .error e => .error e
    | .ok () =>
      if cfg.require_valid_audio_header then
        check_audio_headers content (pyOrStr file.filename "unknown")
      else .ok ()

/-- `AudioFileValidator.validate_upload_file`: the full check sequence of
the source — rate limits, file basics, content type, size, content — and
on success the recorded upload (the cleaned tracking list with the new
timestamp appended). -/
def validate_upload_file (cfg : SecurityConfig) (file : UploadFile)
    (tracking : List Int) (now : Int) : Except ValidationError (List Int) :=
  match check_rate_limits cfg tracking now with
  | .error e => .error e
  | .ok cleaned =>
    match validate_file_basics cfg file with
    | .error e => .error e
    | .ok () =>
      match validate_content_type cfg file with
      | .error e => .error e
      | .ok () =>
        match validate_file_size cfg (effectiveSize file) with
        | .error e => .error e
        | .ok () =>
          match (if cfg.require_valid_audio_header ||
                  cfg.scan_for_malicious_content then
                  validate_file_content cfg file else .ok ()) with
          | .error e => .error e
          | .ok () => .ok (cleaned ++ [now])

/-! Embedding of `stable_squirrel/security/auth_service.py` together with
the authentication stage of `upload_call` in
`stable_squirrel/web/routes/rdioscanner.py`. -/

/-- `APIKeyConfig` from `config.py`. -/
structure APIKeyConfig where
  key : String
  description : Option String := none
  allowed_ips : Option (List String) := none
  allowed_systems : Option (List String) := none
deriving DecidableEq

/-- The authentication-relevant fields of `IngestionConfig` from
`config.py`: the legacy single key and the enhanced key list. -/
structure IngestionConfig where
  api_key : Option String := none
  api_keys : List APIKeyConfig := []
deriving DecidableEq

/-- The fields of a `SecurityEvent` record populated by
`SecurityAuthService._log_security_event`. -/
structure SecurityEvent where
  event_type : String
  severity : String
  source_ip : Option String := none
  source_system : Option String := none
  api_key_used : Option String := none
  user_agent : Option String := none
  description : String := ""
deriving DecidableEq

/-- Python truthiness of an optional list: `None` and `[]` are falsy. -/
def optListTruthy : Option (List String) → Bool
  | none => false
  | some l => !l.isEmpty

/-- Python `str(x)` on an optional string, as used inside the f-string
descriptions (`None` prints as the word None). -/
def pyFormatOpt : Option String → String
  | none => "None"
  | some s => s

/-- The condition `key_config.allowed_ips and client_ip not in
key_config.allowed_ips` of `validate_api_key`. -/
def ip_restriction_violated (allowed : Option (List String))
    (client_ip : String) : Bool :=
  match allowed with
  | some l => !l.isEmpty && !(l.contains client_ip)
  | none => false

/-- The condition `key_config.allowed_systems and system_id and system_id
not in key_config.allowed_systems` of `validate_api_key`: the check is
skipped when no truthy `system_id` is supplied. -/
def system_restriction_violated (allowed : Option (List String))
    (system_id : Option String) : Bool :=
  match allowed, system_id with
  | some l, some s => !l.isEmpty && !(s = "") && !(l.contains s)
  | _, _ => false

/-- The descriptor-scanning loop of
`SecurityAuthService.validate_api_key`: first exact key match wins, its IP
restriction is tested before its system restriction, and a miss of the
whole list emits `invalid_api_key`.  The result triple is
`(is_valid, api_key_id, emitted events)`. -/
def scan_api_keys (api_key client_ip : String)
    (system_id user_agent : Option String) :
    List APIKeyConfig → Bool × Option String × List SecurityEvent
  | [] =>
    (false, none,
      [{ event_type := "invalid_api_key", severity := "medium",
         source_ip := some client_ip, source_system := system_id,
         api_key_used :=
           if api_key = "" then none else some (api_key.take 8 ++ "..."),
         user_agent := user_agent,
         description :=
           "Invalid API key attempted by system " ++ pyFormatOpt system_id }])
  | kc :: rest =>
    if kc.key = api_key then
      if ip_restriction_violated kc.allowed_ips client_ip then
        (false, none,
          [{ event_type := "api_key_ip_violation", severity := "high",
             source_ip := some client_ip, source_system := system_id,
             api_key_used := some (kc.key.take 8 ++ "..."),
             user_agent := user_agent,
             description := "API key used from unauthorized IP " ++ client_ip }])
      else if system_restriction_violated kc.allowed_systems system_id then
        (false, none,
          [{ event_type := "api_key_system_violation", severity := "high",
             source_ip := some client_ip, source_system := system_id,
             api_key_used := some (kc.key.take 8 ++ "..."),
             user_agent := user_agent,
             description :=
               "API key used by unauthorized system " ++ pyFormatOpt system_id }])
      else
        (true, some (kc.key.take 8),
          [{ event_type := "api_key_used", severity := "info",
             source_ip := some client_ip, source_system := system_id,
             api_key_used := some (kc.key.take 8 ++ "..."),
             user_agent := user_agent,
             description :=
               "Valid API key used by system " ++ pyFormatOpt system_id }])
    else scan_api_keys api_key client_ip system_id user_agent rest

/-- `SecurityAuthService.validate_api_key`: the legacy single key is
checked first, then the enhanced descriptors are scanned. -/
def validate_api_key (cfg : IngestionConfig) (api_key client_ip : String)
    (system_id user_agent : Option String) :
    Bool × Option String × List SecurityEvent :=
  if optStrTruthy cfg.api_key && (some api_key = cfg.api_key) then
    (true, some "legacy",
      [{ event_type := "api_key_used", severity := "info",
         source_ip := some client_ip, source_system := system_id,
         api_key_used := some "legacy", user_agent := user_agent,
         description :=
           "Legacy API key used by system " ++ pyFormatOpt system_id }])
  else scan_api_keys api_key client_ip system_id user_agent cfg.api_keys

/-- Outcome of the authentication stage of `upload_call`. -/
inductive AuthOutcome where
  | accepted (api_key_id : Option String)
  | denied (error_msg : String)
deriving DecidableEq

/-- The error message computed by `validate_api_key_and_permissions` from
the security event of a failed validation (substring tests on the event
type, exactly as in the source). -/
def auth_error_msg (events : List SecurityEvent)
    (client_ip : String) (system : Option String) : String :=
  match events.head? with
  | some ev =>
    if containsSub "ip".data ev.event_type.data then
      "API key not authorized for IP " ++ client_ip
    else if containsSub "system".data ev.event_type.data then
      "API key not authorized for system " ++ pyFormatOpt system
    else "Invalid or unauthorized API key"
  | none => "Invalid or unauthorized API key"

/-- The authentication stage of `upload_call` (rdioscanner.py lines
467-496): with a legacy key only, the handler compares the form key
directly and emits no audit event; with enhanced keys it calls
`validate_api_key` only when both the `key` and the `system` form field
are truthy; with no configured keys it admits with a null key id. -/
def upload_call_auth (cfg : IngestionConfig) (key system : Option String)
    (client_ip user_agent : String) : AuthOutcome × List SecurityEvent :=
  let has_legacy := optStrTruthy cfg.api_key
  let has_enhanced := !cfg.api_keys.isEmpty
  if has_legacy || has_enhanced then
    if has_legacy && !has_enhanced then
      if key = cfg.api_key then (.accepted (some "legacy"), [])
      else (.denied "Invalid API key", [])
    else
      if optStrTruthy key && optStrTruthy system then
        match validate_api_key cfg (pyOrStr key "") client_ip system
            (some user_agent) with
        | (true, kid, evs) => (.accepted kid, evs)
        | (false, _, evs) =>
          (.denied (auth_error_msg evs client_ip system), evs)
      else (.denied "Missing API key or system ID", [])
  else (.accepted none, [])

/-! Embedding of `SecurityAuthService._log_security_event` (auth_service.py
lines 168-226): the durable write is attempted when database operations
are wired in, a failure is caught and the event is appended to the
in-memory fallback list `_security_events`, and the function returns the
event — it never raises to the caller.  The `Except` in the result type
records whether an exception escapes. -/

/-- `SecurityEventOperations.create_security_event` as the audit sink sees
it: a durable write that either succeeds or raises. -/
def create_security_event (storeFails : Bool) : Except String Unit :=
  if storeFails then .error "Failed to store security event in database"
  else .ok ()

/-- `SecurityAuthService._log_security_event`: returns the new fallback
buffer and the (never-raising) result. -/
def log_security_event (hasOps storeFails : Bool)
    (buffer : List SecurityEvent) (event : SecurityEvent) :
    List SecurityEvent × Except String SecurityEvent :=
  if hasOps then
    match create_security_event storeFails with
    | .ok () => (buffer, .ok event)
    | .error _ => (buffer ++ [event], .ok event)
  else (buffer ++ [event], .ok event)

/-- The fallback buffer after `n` emissions against a failing durable
store, starting from an empty buffer. -/
def emit_n_failed : Nat → List SecurityEvent
  | 0 => []
  | n + 1 =>
    (log_security_event true true (emit_n_failed n)
      { event_type := "api_key_used", severity := "info" }).1

/-! Embedding of `stable_squirrel/services/task_queue.py`.  The queue is a
cooperatively scheduled asyncio system; the three tracking dictionaries
only change inside the synchronous sections of `enqueue_task`,
`_process_task`, `_mark_task_failed`, `_retry_processor` and
`cleanup_old_tasks`, so each such section is one atomic transition of the
state-machine model.  Fresh `uuid4` task ids are modelled by a counter. -/

/-- `TaskStatus` from `task_queue.py`. -/
inductive TaskStatus where
  | pending
  | processing
  | completed
  | failed
  | retrying
deriving DecidableEq

/-- The tracking-relevant fields of `TranscriptionTask`. -/
structure QTask where
  task_id : Nat
  status : TaskStatus
  retry_count : Nat
  max_retries : Nat
  completed_at : Option Int
deriving DecidableEq

/-- A task dictionary keyed by task id. -/
def TaskMap := Nat → Option QTask

/-- Dictionary write `m[id] = t`. -/
def TaskMap.insert (m : TaskMap) (id : Nat) (t : QTask) : TaskMap :=
  fun i => if i = id then some t else m i

/-- Dictionary delete `del m[id]` (total: deleting an absent key is the
identity, matching the guarded delete in `_mark_task_failed`). -/
def TaskMap.erase (m : TaskMap) (id : Nat) : TaskMap :=
  fun i => if i = id then none else m i

/-- The store calls a queue operation could issue
(`RadioCallOperations.update_transcription_status` is the only candidate
named by the specification). -/
inductive StoreOp where
  | update_transcription_status (call_id : Nat) (status : String)
      (transcribed_at : Option Int)
deriving DecidableEq

/-- The statistics counters of `TranscriptionTaskQueue.stats` touched by
the modelled operations. -/
structure QueueStatsModel where
  total_enqueued : Nat := 0
  total_processed : Nat := 0
  total_failed : Nat := 0
  total_retries : Nat := 0
  queue_full_rejections : Nat := 0
deriving DecidableEq

/-- The mutable state of a `TranscriptionTaskQueue`. -/
structure QState where
  max_queue_size : Nat
  main_queue : List QTask
  retry_queue : List QTask
  active_tasks : TaskMap
  completed_tasks : TaskMap
  failed_tasks : TaskMap
  next_id : Nat
  stats : QueueStatsModel

/-- `TranscriptionTaskQueue.__init__` state (the worker list and running
flag are not part of the tracking model). -/
def initial_queue_state (max_queue_size : Nat) : QState :=
  { max_queue_size := max_queue_size, main_queue := [], retry_queue := [],
    active_tasks := fun _ => none, completed_tasks := fun _ => none,
    failed_tasks := fun _ => none, next_id := 0, stats := {} }

/-- `TranscriptionTaskQueue._mark_task_failed`: set the task to `FAILED`
with a completion time, bump `total_failed`, move it into `failed_tasks`
and drop it from `active_tasks`.  The second component records every
database operation the function performs — there are none; the function
only logs. -/
def mark_task_failed (s : QState) (t : QTask) (now : Int) :
    QState × List StoreOp :=
  let t' := { t with status := .failed, completed_at := some now }
  ({ s with
      failed_tasks := s.failed_tasks.insert t.task_id t',
      active_tasks := s.active_tasks.erase t.task_id,
      stats := { s.stats with total_failed := s.stats.total_failed + 1 } },
   [])

/-- `TranscriptionTaskQueue.enqueue_task`: non-blocking put plus tracking
registration, or a `QueueFull` rejection that only bumps the rejection
counter. -/
def enqueue_task (s : QState) : QState × Except String Nat :=
  let task : QTask :=
    { task_id := s.next_id, status := .pending, retry_count := 0,
      max_retries := 3, completed_at := none }
  if s.main_queue.length < s.max_queue_size then
    ({ s with
        main_queue := s.main_queue ++ [task],
        active_tasks := s.active_tasks.insert task.task_id task,
        next_id := s.next_id + 1,
        stats := { s.stats with
          total_enqueued := s.stats.total_enqueued + 1 } },
     .ok task.task_id)
  else
    ({ s with
        next_id := s.next_id + 1,
        stats := { s.stats with
          queue_full_rejections := s.stats.queue_full_rejections + 1 } },
     .error "Transcription queue is full")

/-- `TranscriptionTaskQueue.get_task_status`: look in `active_tasks`,
then `completed_tasks`, then `failed_tasks`. -/
def get_task_status (s : QState) (task_id : Nat) : Option QTask :=
  match s.active_tasks task_id with
  | some t => some t
  | none =>
    match s.completed_tasks task_id with
    | some t => some t
    | none => s.failed_tasks task_id

/-- Success branch of `_process_task` on the task dequeued from the head
of the main queue: mark completed, move from `active_tasks` to
`completed_tasks`. -/
def process_task_success (s : QState) (t : QTask) (rest : List QTask)
    (now : Int) : QState :=
  let t' := { t with status := .completed, completed_at := some now }
  { s with
      main_queue := rest,
      completed_tasks := s.completed_tasks.insert t.task_id t',
      active_tasks := s.active_tasks.erase t.task_id,
      stats := { s.stats with
        total_processed := s.stats.total_processed + 1 } }

/-- Failure branch of `_process_task` when a retry is still allowed and
the retry queue has room: the task (still registered in `active_tasks`)
is marked `RETRYING` and pushed onto the retry queue. -/
def process_task_fail_retry (s : QState) (t : QTask) (rest : List QTask) :
    QState :=
  let t' := { t with status := .retrying, retry_count := t.retry_count + 1 }
  { s with
      main_queue := rest,
      retry_queue := s.retry_queue ++ [t'],
      active_tasks := s.active_tasks.insert t.task_id t',
      stats := { s.stats with
        total_retries := s.stats.total_retries + 1 } }

/-- Failure branch of `_process_task` when a retry is allowed but the
retry queue is full: the retry bookkeeping has happened and the task is
then marked failed. -/
def process_task_fail_retry_full (s : QState) (t : QTask)
    (rest : List QTask) (now : Int) : QState :=
  let t' := { t with status := .retrying, retry_count := t.retry_count + 1 }
  (mark_task_failed
    { s with
        main_queue := rest,
        stats := { s.stats with
          total_retries := s.stats.total_retries + 1 } }
    t' now).1

/-- Failure branch of `_process_task` when the retry budget is exhausted:
the task is marked failed. -/
def process_task_fail_permanent (s : QState) (t : QTask)
    (rest : List QTask) (now : Int) : QState :=
  let t' := { t with retry_count := t.retry_count + 1 }
  (mark_task_failed { s with main_queue := rest } t' now).1

/-- `_retry_processor`, happy path: move the head of the retry queue to
the tail of the main queue. -/
def retry_requeue (s : QState) (t : QTask) (rest : List QTask) : QState :=
  { s with retry_queue := rest, main_queue := s.main_queue ++ [t] }

/-- `_retry_processor` when the main queue stays full: push the task back
onto the retry queue. -/
def retry_put_back (s : QState) (t : QTask) (rest : List QTask) : QState :=
  { s with retry_queue := rest ++ [t] }

/-- `_retry_processor` when both the main queue and the retry queue are
full: the task is marked failed. -/
def retry_drop (s : QState) (t : QTask) (rest : List QTask) (now : Int) :
    QState :=
  (mark_task_failed { s with retry_queue := rest } t now).1

/-- `cleanup_old_tasks`: evict completed and failed entries whose
completion time is older than the cutoff. -/
def cleanup_old_tasks (s : QState) (cutoff : Int) : QState :=
  let evict : TaskMap → TaskMap := fun m i =>
    match m i with
    | some t =>
      match t.completed_at with
      | some ts => if ts < cutoff then none else some t
      | none => some t
    | none => none
  { s with
      completed_tasks := evict s.completed_tasks,
      failed_tasks := evict s.failed_tasks }

/-- One atomic transition of the task queue: each constructor is one
synchronous section of the source, with its guards as hypotheses. -/
inductive QStep : QState → QState → Prop where
  | enqueue (s : QState) : QStep s (enqueue_task s).1
  | process_success (s : QState) (t : QTask) (rest : List QTask) (now : Int)
      (hq : s.main_queue = t :: rest) :
      QStep s (process_task_success s t rest now)
  | process_fail_retry (s : QState) (t : QTask) (rest : List QTask)
      (hq : s.main_queue = t :: rest)
      (hr : t.retry_count + 1 ≤ t.max_retries)
      (hroom : s.retry_queue.length < s.max_queue_size / 2) :
      QStep s (process_task_fail_retry s t rest)
  | process_fail_retry_full (s : QState) (t : QTask) (rest : List QTask)
      (now : Int) (hq : s.main_queue = t :: rest)
      (hr : t.retry_count + 1 ≤ t.max_retries)
      (hfull : s.max_queue_size / 2 ≤ s.retry_queue.length) :
      QStep s (process_task_fail_retry_full s t rest now)
  | process_fail_permanent (s : QState) (t : QTask) (rest : List QTask)
      (now : Int) (hq : s.main_queue = t :: rest)
      (hr : t.max_retries < t.retry_count + 1) :
      QStep s (process_task_fail_permanent s t rest now)
  | retry_requeue (s : QState) (t : QTask) (rest : List QTask)
      (hq : s.retry_queue = t :: rest)
      (hroom : s.main_queue.length < s.max_queue_size) :
      QStep s (retry_requeue s t rest)
  | retry_put_back (s : QState) (t : QTask) (rest : List QTask)
      (hq : s.retry_queue = t :: rest)
      (hfull : s.max_queue_size ≤ s.main_queue.length)
      (hroom : rest.length < s.max_queue_size / 2) :
      QStep s (retry_put_back s t rest)
  | retry_drop (s : QState) (t : QTask) (rest : List QTask) (now : Int)
      (hq : s.retry_queue = t :: rest)
      (hfull : s.max_queue_size ≤ s.main_queue.length)
      (hnoroom : s.max_queue_size / 2 ≤ rest.length) :
      QStep s (retry_drop s t rest now)
  | cleanup (s : QState) (cutoff : Int) :
      QStep s (cleanup_old_tasks s cutoff)

/-- States reachable from a freshly constructed queue. -/
inductive QReachable : QState → Prop where
  | init (max_queue_size : Nat) : QReachable (initial_queue_state max_queue_size)
  | step {s s' : QState} : QReachable s → QStep s s' → QReachable s'

/-! Embedding of `DatabaseOperations.store_complete_transcription`
(`stable_squirrel/database/operations.py` lines 379-484).  The store is
the visible relational state; the asyncpg transaction is modelled by
running the four insert/update stages on a draft state and, on any raised
error, returning the original state (the automatic rollback).  Faults of
individual statements are injected through an explicit schedule `failAt`
giving the index of the statement that raises, mirroring a database error
at that point of the transaction.  External readers only ever see the
state before or the state after the committed transaction — the function
is the one atomic step. -/

/-- The fields of `RadioCallCreate` the transaction reads. -/
structure RadioCallCreate where
  call_id : Nat
  timestamp : Int
  frequency : Int
  audio_file_path : String
  upload_source_ip : Option String := none
deriving DecidableEq

/-- The fields of `TranscriptionCreate` the transaction reads; the stored
row carries the `call_id` column value passed to the insert. -/
structure TranscriptionCreate where
  call_id : Nat
  full_transcript : String
  language : String
  speaker_count : Nat
deriving DecidableEq

/-- The fields of a `SpeakerSegment` the transaction reads. -/
structure SpeakerSegmentModel where
  call_id : Nat
  segment_id : Nat
  start_time_seconds : Int
  end_time_seconds : Int
  speaker_id : String
  text : String
deriving DecidableEq

/-- A row of the `radio_calls` table. -/
structure CallRow where
  call_id : Nat
  timestamp : Int
  frequency : Int
  audio_file_path : String
  transcription_status : String
  transcribed_at : Option Int
deriving DecidableEq

/-- The three tables the transaction writes. -/
structure Store where
  radio_calls : List CallRow
  transcriptions : List TranscriptionCreate
  speaker_segments : List SpeakerSegmentModel
deriving DecidableEq

/-- The `radio_calls` row inserted for a call, with the given status and
`transcribed_at` columns. -/
def callRowOf (rc : RadioCallCreate) (status : String)
    (transcribed_at : Option Int) : CallRow :=
  { call_id := rc.call_id, timestamp := rc.timestamp,
    frequency := rc.frequency, audio_file_path := rc.audio_file_path,
    transcription_status := status, transcribed_at := transcribed_at }

/-- The segment-insert loop of the transaction: each row is inserted with
the `call_id` parameter of the enclosing call, one statement per segment,
statement indices counting on from `stepIdx`. -/
def insert_segments_loop (st : Store) (cid : Nat)
    (segs : List SpeakerSegmentModel) (stepIdx : Nat)
    (failAt : Option Nat) : Except String Store :=
  match segs with
  | [] => .ok st
  | seg :: rest =>
    if failAt = some stepIdx then .error "speaker_segments insert failed"
    else
      insert_segments_loop
        { st with speaker_segments :=
            st.speaker_segments ++ [{ seg with call_id := cid }] }
        cid rest (stepIdx + 1) failAt

/-- The body of the `store_complete_transcription` transaction: insert
the call row with status `processing`, insert the transcription row,
insert every segment row in order, then update the call row to
`completed` with `transcribed_at = NOW()`.  Statement `i` raises when
`failAt = some i` (0 = call insert, 1 = transcription insert, 2..k+1 =
segments, k+2 = final update). -/
def store_complete_transcription_txn (st : Store)
    (radio_call : RadioCallCreate) (transcription : TranscriptionCreate)
    (speaker_segments : List SpeakerSegmentModel)
    (failAt : Option Nat) (now : Int) : Except String Store :=
  let cid := radio_call.call_id
  if failAt = some 0 then .error "radio_calls insert failed"
  else
    let st1 := { st with radio_calls :=
        st.radio_calls ++ [callRowOf radio_call "processing" none] }
    if failAt = some 1 then .error "transcriptions insert failed"
    else
      let st2 := { st1 with transcriptions :=
          st1.transcriptions ++ [{ transcription with call_id := cid }] }
      match insert_segments_loop st2 cid speaker_segments 2 failAt with
      | .error e => .error e
      | .ok st3 =>
        if failAt = some (2 + speaker_segments.length) then
          .error "radio_calls update failed"
        else
          .ok { st3 with radio_calls := st3.radio_calls.map (fun r =>
              if r.call_id = cid then
                { r with transcription_status := "completed",
                         transcribed_at := some now }
              else r) }

/-- `store_complete_transcription` as the caller observes it: the
transaction commits the draft state, or rolls back leaving the store
unchanged and re-raising the error. -/
def store_complete_transcription (st : Store)
    (radio_call : RadioCallCreate) (transcription : TranscriptionCreate)
    (speaker_segments : List SpeakerSegmentModel)
    (failAt : Option Nat) (now : Int) : Store × Except String Unit :=
  match store_complete_transcription_txn st radio_call transcription
      speaker_segments failAt now with
  | .ok st' => (st', .ok ())
  | .error e => (st, .error e)

/-! Embedding of the temp-file lifecycle of `upload_call` and
`TranscriptionService._process_queued_transcription`
(`rdioscanner.py` lines 522-569, `transcription.py` lines 458-488).  The
file system is the set of existing paths. -/

/-- A file system as a path-membership predicate. -/
def FS := String → Bool

/-- Creation of the named temporary file. -/
def fs_create (fs : FS) (p : String) : FS :=
  fun q => if q = p then true else fs q

/-- `Path.unlink`, total: the handler wraps the unlink in try/except and
the queue processor guards it with an existence check, so removing an
absent path leaves the file system unchanged. -/
def fs_unlink (fs : FS) (p : String) : FS :=
  fun q => if q = p then false else fs q

/-- The error outcomes of `_process_queued_transcription`. -/
inductive ProcessError where
  | file_not_found
  | transcribe_failed
deriving DecidableEq

/-- `TranscriptionService._process_queued_transcription`: raise
`FileNotFoundError` when the audio path no longer exists, otherwise run
the transcription (which may fail); the `finally` block unlinks the path
in every case. -/
def process_queued_transcription (fs : FS) (audio_file_path : String)
    (transcribeFails : Bool) : FS × Except ProcessError Unit :=
  let result : Except ProcessError Unit :=
    if fs audio_file_path = false then .error .file_not_found
    else if transcribeFails then .error .transcribe_failed
    else .ok ()
  (fs_unlink fs audio_file_path, result)

/-- Result of the audio-processing phase of `upload_call`: the file
system on return, the path enqueued for background transcription (if
any), and the HTTP response (status 500 on a processing error). -/
structure HandlerResult where
  fs : FS
  enqueued : Option String
  response : Except Nat String

/-- The audio-processing phase of `upload_call`, entered once the audio
content is non-empty: materialize the bytes to the temporary file, run
`process_rdioscanner_call` (which enqueues the task, or on a full queue
falls back to inline transcription), and in the `finally` block unlink
the temporary file before the response is returned — on the success path
as well, although the enqueued background task references that same
path. -/
def upload_call_audio_phase (fs : FS) (tmp_path : String)
    (queue_full transcribe_inline_fails : Bool) : HandlerResult :=
  let fs1 := fs_create fs tmp_path
  let outcome : Option String × Bool :=
    if queue_full = false then (some tmp_path, true)
    else if transcribe_inline_fails then (none, false)
    else (none, true)
  let fs2 := fs_unlink fs1 tmp_path
  { fs := fs2, enqueued := outcome.1,
    response :=
      if outcome.2 then .ok "Call imported successfully."
      else .error 500 }

/-! Embedding of `parse_multipart_manually`
(`stable_squirrel/web/routes/rdioscanner.py` lines 25-149).  Header
strings are processed as character lists; the UTF-8 decode with
`errors="ignore"` is modelled on the ASCII plane, where it is the
identity on bytes below 128 — the header lines of the call-upload
contract are ASCII. -/

/-- Python string decode of a header byte sequence: bytes below 128
become characters, the rest are ignored. -/
def asciiDecode (l : List Byte) : List Char :=
  (l.filter (fun b => b < 128)).map Char.ofNat

/-- Byte encoding of an ASCII character sequence. -/
def charsToBytes (l : List Char) : List Byte := l.map Char.toNat

/-- The characters Python `str.strip()` removes. -/
def isPyWsChar (c : Char) : Bool :=
  c = ' ' || c = '\t' || c = '\n' || c = '\x0d' ||
    c = Char.ofNat 11 || c = Char.ofNat 12

/-- The bytes Python `bytes.strip()` removes. -/
def isPyWsByte (b : Byte) : Bool :=
  b = 32 || b = 9 || b = 10 || b = 13 || b = 11 || b = 12

/-- Drop elements satisfying `bad` from both ends. -/
def stripEnds (bad : α → Bool) (l : List α) : List α :=
  ((l.dropWhile bad).reverse.dropWhile bad).reverse

/-- Python `str.strip()`. -/
def pyStripC (l : List Char) : List Char := stripEnds isPyWsChar l

/-- Python `bytes.strip()`. -/
def pyStripB (l : List Byte) : List Byte := stripEnds isPyWsByte l

/-- Python `bytes.rstrip(bad)`: drop trailing bytes that occur in
`bad`. -/
def rstripSet (bad : List Byte) (l : List Byte) : List Byte :=
  (l.reverse.dropWhile (fun b => bad.contains b)).reverse

/-- Python `str.split(c)` on a single-character separator. -/
def splitChar (c : Char) : List Char → List (List Char)
  | [] => [[]]
  | a :: rest =>
    if a = c then [] :: splitChar c rest
    else
      match splitChar c rest with
      | [] => [[a]]
      | h :: t => (a :: h) :: t

/-- Worker for Python `bytes.split(sep)`: leftmost non-overlapping
occurrences; `skip` counts separator bytes still being consumed. -/
def split_go (sep : List Byte) : List Byte → Nat → List (List Byte)
  | [], _ => [[]]
  | _ :: rest, skip + 1 => split_go sep rest skip
  | a :: rest, 0 =>
    if isPrefixB sep (a :: rest) then
      [] :: split_go sep rest (sep.length - 1)
    else
      match split_go sep rest 0 with
      | [] => [[a]]
      | c :: cs => (a :: c) :: cs

/-- Python `bytes.split(sep)` for a nonempty separator. -/
def pySplit (sep : List Byte) (l : List Byte) : List (List Byte) :=
  split_go sep l 0

/-- Python `bytes.split(sep, 1)` at the leftmost occurrence, `none` when
the separator does not occur. -/
def split_once_go (sep : List Byte) : List Byte → Option (List Byte × List Byte)
  | [] => none
  | a :: rest =>
    if isPrefixB sep (a :: rest) then some ([], (a :: rest).drop sep.length)
    else
      match split_once_go sep rest with
      | some (h, b) => some (a :: h, b)
      | none => none

/-- Python truthiness of an optional character list (`None` and the empty
string are falsy). -/
def optCharsTruthy : Option (List Char) → Bool
  | none => false
  | some l => !l.isEmpty

/-- A parsed form field: a plain value, or an uploaded file as captured by
the `SimpleUploadFile` object built in the parser. -/
inductive MPField where
  | str (value : List Char)
  | file (filename : List Char) (content_type : List Char)
      (content : List Byte)
deriving DecidableEq

/-- Python dictionary insertion on an insertion-ordered association list:
overwriting keeps the original position. -/
def dict_insert (k : List Char) (v : MPField) :
    List (List Char × MPField) → List (List Char × MPField)
  | [] => [(k, v)]
  | (k', v') :: rest =>
    if k' = k then (k, v) :: rest else (k', v') :: dict_insert k v rest

/-- The boundary-extraction loop of `parse_multipart_manually`: the first
semicolon-separated piece of the content type that starts with
`boundary=`, with the prefix dropped and quotes stripped. -/
def extract_boundary (content_type : List Char) : Option (List Char) :=
  (((splitChar ';' content_type).map pyStripC).find?
      (fun p => isPrefixB "boundary=".data p)).map
    (fun p => stripEnds (fun c => c = '"') (p.drop 9))

/-- The header values accumulated while scanning one part. -/
structure PartHeaderInfo where
  field_name : Option (List Char) := none
  filename : Option (List Char) := none
  content_type_field : Option (List Char) := none

/-- One `Content-Disposition` item: `name="..."` and `filename="..."`
items are sliced as `item[6:-1]` and `item[10:-1]`. -/
def parse_header_item (st : PartHeaderInfo) (item0 : List Char) :
    PartHeaderInfo :=
  let item := pyStripC item0
  if isPrefixB "name=\"".data item then
    { st with field_name := some ((item.drop 6).dropLast) }
  else if isPrefixB "filename=\"".data item then
    { st with filename := some ((item.drop 10).dropLast) }
  else st

/-- One header line: `Content-Disposition` is split on semicolons and
scanned for names, `Content-Type` is sliced as `line[13:]` and
stripped. -/
def parse_header_line (st : PartHeaderInfo) (line0 : List Char) :
    PartHeaderInfo :=
  let line := pyStripC line0
  if isPrefixB "Content-Disposition:".data line then
    (splitChar ';' line).foldl parse_header_item st
  else if isPrefixB "Content-Type:".data line then
    { st with content_type_field := some (pyStripC (line.drop 13)) }
  else st

/-- Processing of one part between boundary markers: skip the closing or
empty part, split headers from body at the first `\r\n\r\n` (or `\n\n`),
scan the header lines, strip the trailing newline bytes from the body —
note the `rstrip` removes every trailing CR and LF byte — and register
the field. -/
def process_part (fields : List (List Char × MPField)) (part : List Byte) :
    List (List Char × MPField) :=
  if pyStripB part = strBytes "--" || pyStripB part = [] then fields
  else
    let sepSplit : Option (List Byte × List Byte) :=
      if containsSub (strBytes "\r\n\r\n") part then
        split_once_go (strBytes "\r\n\r\n") part
      else if containsSub (strBytes "\n\n") part then
        split_once_go (strBytes "\n\n") part
      else none
    match sepSplit with
    | none => fields
    | some (headers_section, body_section0) =>
      let headers_text := pyStripC (asciiDecode headers_section)
      let info := (splitChar '\n' headers_text).foldl parse_header_line {}
      if optCharsTruthy info.field_name then
        let fname := info.field_name.getD []
        let body_section := rstripSet [10] (rstripSet [13, 10] body_section0)
        if optCharsTruthy info.filename then
          let ct :=
            if optCharsTruthy info.content_type_field then
              info.content_type_field.getD []
            else "application/octet-stream".data
          dict_insert fname
            (.file (info.filename.getD []) ct body_section) fields
        else
          dict_insert fname (.str (pyStripC (asciiDecode body_section))) fields
      else fields

/-- `parse_multipart_manually`: check the content type, extract the
boundary, split the body on `--boundary`, skip the preamble part, and
fold every remaining part into the field dictionary. -/
def parse_multipart_manually (content_type : List Char) (body : List Byte) :
    List (List Char × MPField) :=
  if !isPrefixB "multipart/form-data".data content_type then []
  else
    match extract_boundary content_type with
    | none => []
    | some boundary =>
      if boundary = [] then []
      else
        let marker := strBytes "--" ++ charsToBytes boundary
        ((pySplit marker body).drop 1).foldl process_part []

/-- Modelled from the spec: the `Content-Disposition` header line of a
string-field part of the standard encoding. -/
def cdLineStr (name : List Char) : List Char :=
  "Content-Disposition: form-data; name=\"".data ++ name ++ "\"".data

/-- Modelled from the spec: the `Content-Disposition` header line of the
file part. -/
def cdLineFile (name filename : List Char) : List Char :=
  "Content-Disposition: form-data; name=\"".data ++ name ++
    "\"; filename=\"".data ++ filename ++ "\"".data

/-- Modelled from the spec: the `Content-Type` header line of the file
part. -/
def ctLine (ctype : List Char) : List Char := "Content-Type: ".data ++ ctype

/-- Modelled from the spec: the bytes of a string-field part after its
boundary marker — CRLF, the disposition line, the blank line, the value,
CRLF. -/
def partBodyStr (name value : List Char) : List Byte :=
  strBytes "\r\n" ++ charsToBytes (cdLineStr name) ++
    strBytes "\r\n\r\n" ++ charsToBytes value ++ strBytes "\r\n"

/-- Modelled from the spec: the bytes of the file part after its boundary
marker. -/
def partBodyFile (name filename ctype : List Char) (content : List Byte) :
    List Byte :=
  strBytes "\r\n" ++ charsToBytes (cdLineFile name filename) ++
    strBytes "\r\n" ++ charsToBytes (ctLine ctype) ++
    strBytes "\r\n\r\n" ++ content ++ strBytes "\r\n"

/-- Modelled from the spec: the standard `multipart/form-data` encoding of
section 6.1 builds the body the client (httpx, SDRTrunk) sends; only the
decoder exists in the source, so the encoder side of the round-trip claim
is taken from the specification text.  One string-field part. -/
def encode_part_str (marker : List Byte) (name value : List Char) :
    List Byte :=
  marker ++ partBodyStr name value

/-- Modelled from the spec: the file part of the standard encoding, with
its `Content-Disposition` and `Content-Type` header lines. -/
def encode_part_file (marker : List Byte)
    (name filename ctype : List Char) (content : List Byte) : List Byte :=
  marker ++ partBodyFile name filename ctype content

/-- Modelled from the spec: the full standard encoding — the string parts
in order, the audio file part, and the closing marker — together with the
content-type header value that carries the boundary. -/
def encode_multipart (boundary : List Char)
    (strFields : List (List Char × List Char))
    (fileName fileFilename fileCType : List Char)
    (fileContent : List Byte) : List Char × List Byte :=
  let marker := strBytes "--" ++ charsToBytes boundary
  ("multipart/form-data; boundary=".data ++ boundary,
    (strFields.map (fun nv => encode_part_str marker nv.1 nv.2)).flatten ++
      encode_part_file marker fileName fileFilename fileCType fileContent ++
      marker ++ strBytes "--\r\n")

/-- ASCII header-token constraint shared by field names, the filename and
the boundary: printable ASCII with no quote, semicolon, CR or LF.  These
are the characters the hand-written header parser slices around. -/
@[reducible] def headerSafe (l : List Char) : Prop :=
  ∀ c ∈ l, c.toNat < 128 ∧ c ≠ '"' ∧ c ≠ ';' ∧ c.toNat ≠ 13 ∧ c.toNat ≠ 10

/-- The boundary marker `--boundary` as bytes. -/
def markerOf (boundary : List Char) : List Byte :=
  strBytes "--" ++ charsToBytes boundary

/-- A character list unchanged by Python `str.strip()`: empty, or
whitespace-free at both ends. -/
def stripStable (l : List Char) : Bool :=
  l.head?.all (fun a => !isPyWsChar a) && l.getLast?.all (fun b => !isPyWsChar b)

/-- Conditions on the boundary under which the hand-written parser
recovers it from the content-type header: nonempty, header-safe, and not
ending in whitespace the header strip would eat. -/
@[reducible] def boundaryOK (boundary : List Char) : Prop :=
  boundary ≠ [] ∧ headerSafe boundary ∧
    boundary.getLast?.all (fun c => !isPyWsChar c) = true

/-- Conditions on one string field of the standard encoding: a nonempty
header-safe name, an ASCII strip-stable value, and a boundary marker that
occurs neither in the disposition line nor in the value bytes. -/
@[reducible] def strFieldOK (marker : List Byte) (nv : List Char × List Char) : Prop :=
  nv.1 ≠ [] ∧ headerSafe nv.1 ∧ (∀ c ∈ nv.2, c.toNat < 128) ∧
    stripStable nv.2 = true ∧
    containsSub marker (charsToBytes (cdLineStr nv.1)) = false ∧
    containsSub marker (charsToBytes nv.2) = false

/-- Conditions on the declared content type of the file part: nonempty,
ASCII without CR or LF, strip-stable, marker-free. -/
@[reducible] def ctypeOK (marker : List Byte) (ct : List Char) : Prop :=
  ct ≠ [] ∧ (∀ c ∈ ct, c.toNat < 128 ∧ c.toNat ≠ 13 ∧ c.toNat ≠ 10) ∧
    stripStable ct = true ∧
    containsSub marker (charsToBytes (ctLine ct)) = false

/-- Conditions on the file part: nonempty header-safe name and filename,
a well-formed content type, marker-free header line and content, and
content that does not itself end in a CR or LF byte (the parser strips
every trailing CR and LF from the part body). -/
@[reducible] def fileFieldOK (marker : List Byte) (name filename ct : List Char)
    (content : List Byte) : Prop :=
  name ≠ [] ∧ headerSafe name ∧ filename ≠ [] ∧ headerSafe filename ∧
    containsSub marker (charsToBytes (cdLineFile name filename)) = false ∧
    ctypeOK marker ct ∧ containsSub marker content = false ∧
    content.getLast?.all (fun y => decide (y ≠ 13 ∧ y ≠ 10)) = true

/-! Concrete inputs used by the claim theorems, and the queue invariant. -/

/-- An `.mp3`-named upload of admissible size whose content starts with
the PDF magic. -/
def pdfMp3File : UploadFile :=
  { filename := some "test.mp3", content_type := some "audio/mpeg",
    size := 1024, content := strBytes "%PDF" ++ List.replicate 1020 65 }

/-- A configuration with one enhanced key restricted to system 100. -/
def cfgSystemRestricted : IngestionConfig :=
  { api_key := none,
    api_keys := [{ key := "secret-key-1", allowed_systems := some ["100"] }] }

/-- A configuration with only the legacy single key. -/
def cfgLegacyOnly : IngestionConfig := { api_key := some "k" }

/-- The first key descriptor matching a presented key, as the scanning
loop of `validate_api_key` selects it. -/
def find_key_config (api_key : String) : List APIKeyConfig → Option APIKeyConfig
  | [] => none
  | kc :: rest =>
    if kc.key = api_key then some kc else find_key_config api_key rest

/-- A task that exhausted its retries. -/
def exTask : QTask :=
  { task_id := 0, status := .processing, retry_count := 4, max_retries := 3,
    completed_at := none }

/-- A queue state holding `exTask` as its only active task. -/
def exQState : QState :=
  { max_queue_size := 10, main_queue := [], retry_queue := [],
    active_tasks := TaskMap.insert (fun _ => none) 0 exTask,
    completed_tasks := fun _ => none, failed_tasks := fun _ => none,
    next_id := 1, stats := {} }

/-- The empty store. -/
def exStore0 : Store :=
  { radio_calls := [], transcriptions := [], speaker_segments := [] }

/-- A concrete call, transcription and segment for the transaction
witness. -/
def exRC : RadioCallCreate :=
  { call_id := 1, timestamp := 1703980800, frequency := 460025000,
    audio_file_path := "/tmp/test.mp3" }

/-- A concrete transcription row input. -/
def exTR : TranscriptionCreate :=
  { call_id := 1, full_transcript := "unit test", language := "en",
    speaker_count := 1 }

/-- A concrete speaker segment input. -/
def exSeg : SpeakerSegmentModel :=
  { call_id := 1, segment_id := 0, start_time_seconds := 0,
    end_time_seconds := 2, speaker_id := "SPEAKER_00", text := "unit test" }

/-- Every task id is tracked by at most one of the three maps. -/
def MapsDisjoint (s : QState) : Prop :=
  ∀ id, ((s.active_tasks id).isSome →
      s.completed_tasks id = none ∧ s.failed_tasks id = none)
    ∧ ((s.completed_tasks id).isSome → s.failed_tasks id = none)

/-- The inductive invariant of the queue state machine: map disjointness,
id coherence and freshness bounds, registration of every queued task in
`active_tasks`, and distinct ids across the two queues. -/
structure QInv (s : QState) : Prop where
  disjoint : MapsDisjoint s
  active_lt : ∀ id t, s.active_tasks id = some t → t.task_id = id ∧ id < s.next_id
  completed_lt : ∀ id t, s.completed_tasks id = some t → t.task_id = id ∧ id < s.next_id
  failed_lt : ∀ id t, s.failed_tasks id = some t → t.task_id = id ∧ id < s.next_id
  main_active : ∀ t ∈ s.main_queue, (s.active_tasks t.task_id).isSome
  retry_active : ∀ t ∈ s.retry_queue, (s.active_tasks t.task_id).isSome
  queue_nodup : ((s.main_queue ++ s.retry_queue).map QTask.task_id).Nodup

/-! Theorems for the claims. -/

/-- C7: file-size validation rejects exactly the sizes strictly below
`min_file_size` or strictly above `max_file_size`; in particular a
payload of exactly `min_file_size - 1` bytes is rejected, exactly
`min_file_size` bytes passes the size check, exactly `max_file_size`
bytes passes, and `max_file_size + 1` bytes is rejected. -/
theorem validate_file_size_boundary (cfg : SecurityConfig)
    (h1 : 1 ≤ cfg.min_file_size)
    (h2 : cfg.min_file_size ≤ cfg.max_file_size) :
    (∀ n : Nat, validate_file_size cfg n = .ok () ↔
      cfg.min_file_size ≤ n ∧ n ≤ cfg.max_file_size)
    ∧ validate_file_size cfg (cfg.min_file_size - 1) =
        .error (.too_small (cfg.min_file_size - 1))
    ∧ validate_file_size cfg cfg.min_file_size = .ok ()
    ∧ validate_file_size cfg cfg.max_file_size = .ok ()
    ∧ validate_file_size cfg (cfg.max_file_size + 1) =
        .error (.too_large (cfg.max_file_size + 1)) := by
  have main : ∀ n : Nat, validate_file_size cfg n = .ok () ↔
      cfg.min_file_size ≤ n ∧ n ≤ cfg.max_file_size := by
    intro n
    by_cases hl : n < cfg.min_file_size
    · simp [validate_file_size, hl]
    · by_cases hr : cfg.max_file_size < n
      · simp [validate_file_size, hl, hr]
      · simp [validate_file_size, hl, hr]
        omega
  refine ⟨main, ?_, ?_, ?_, ?_⟩
  · simp [validate_file_size]
    omega
  · rw [main]
    omega
  · rw [main]
    omega
  · simp [validate_file_size]
    omega

/-- Witness for C7 at the default configuration (`min_file_size = 1024`,
`max_file_size = 100 MiB`). -/
theorem validate_file_size_boundary_witness :
    validate_file_size defaultSecurityConfig 1023 = .error (.too_small 1023)
    ∧ validate_file_size defaultSecurityConfig 1024 = .ok ()
    ∧ validate_file_size defaultSecurityConfig 104857600 = .ok ()
    ∧ validate_file_size defaultSecurityConfig 104857601 =
        .error (.too_large 104857601) := by
  have h := validate_file_size_boundary defaultSecurityConfig
    (by decide) (by decide)
  exact ⟨h.2.1, h.2.2.1, h.2.2.2.1, h.2.2.2.2⟩

/-- C8, counterexample: the in-memory fallback of
`_log_security_event` is a plain Python list with no capacity — no bound
`cap` dominates the buffer length across failing emissions, so it is not
the bounded drop-oldest ring buffer the claim describes. -/
theorem log_security_event_unbounded : ¬ ∃ cap : Nat, ∀ n : Nat,
    (emit_n_failed n).length ≤ cap := by
  have hlen : ∀ n, (emit_n_failed n).length = n := by
    intro n
    induction n with
    | zero => rfl
    | succ k ih =>
      simp [emit_n_failed, log_security_event, create_security_event, ih]
  rintro ⟨cap, h⟩
  have := h (cap + 1)
  rw [hlen] at this
  omega

/-- C8, amended: emitting a security event never raises to its caller;
when the durable write fails (or no database operations are wired) the
event is appended to the unbounded in-memory list, which never drops an
entry, and on a successful durable write the list is untouched. -/
theorem log_security_event_spec (hasOps storeFails : Bool)
    (buffer : List SecurityEvent) (event : SecurityEvent) :
    (log_security_event hasOps storeFails buffer event).2 = .ok event
    ∧ (log_security_event hasOps storeFails buffer event).1 =
        (if hasOps && !storeFails then buffer else buffer ++ [event]) := by
  cases hasOps <;> cases storeFails <;>
    simp [log_security_event, create_security_event]

/-- C3, counterexample: `_mark_task_failed` moves the task into the
failed map but performs no database operation at all — in particular no
`update_transcription_status` call moves the call row to `failed`. -/
theorem mark_task_failed_no_store_write :
    ((mark_task_failed exQState exTask 5).1.failed_tasks 0 =
      some { exTask with status := .failed, completed_at := some 5 })
    ∧ (mark_task_failed exQState exTask 5).2 = [] := by
  exact ⟨rfl, rfl⟩

/-- C3, amended: when a transcription task permanently fails, the task is
moved to the failed map (status `FAILED`, completion time set) and
removed from the active map, but the store is not touched: the operation
issues no `UpdateStatus` (the call row does not yet exist at that point
and `update_transcription_status` has no callers). -/
theorem mark_task_failed_spec (s : QState) (t : QTask) (now : Int) :
    (mark_task_failed s t now).1.failed_tasks t.task_id =
      some { t with status := .failed, completed_at := some now }
    ∧ (mark_task_failed s t now).1.active_tasks t.task_id = none
    ∧ (mark_task_failed s t now).2 = [] := by
  refine ⟨?_, ?_, rfl⟩ <;> simp [mark_task_failed, TaskMap.insert, TaskMap.erase]

/-- C9: whenever the handler materializes the audio to a temporary file,
that file is gone from the file system in the state the handler returns
with — on the failure paths and on the success path where the enqueued
background task still references it — and the queued processor, run on
such a state, fails with the file-not-found error and unlinks the path
on its own exit paths as well. -/
theorem upload_call_temp_file_lifecycle (fs : FS) (tmp : String)
    (queue_full transcribe_inline_fails transcribeFails : Bool) :
    (upload_call_audio_phase fs tmp queue_full transcribe_inline_fails).fs tmp
      = false
    ∧ (upload_call_audio_phase fs tmp queue_full transcribe_inline_fails).enqueued
      = (if queue_full then none else some tmp)
    ∧ (process_queued_transcription
        (upload_call_audio_phase fs tmp queue_full transcribe_inline_fails).fs
        tmp transcribeFails).2 = .error .file_not_found
    ∧ ∀ (fs2 : FS) (p : String),
        (process_queued_transcription fs2 p transcribeFails).1 p = false := by
  refine ⟨?_, ?_, ?_, ?_⟩
  · simp [upload_call_audio_phase, fs_unlink]
  · cases queue_full <;> cases transcribe_inline_fails <;>
      simp [upload_call_audio_phase]
  · simp [process_queued_transcription, upload_call_audio_phase, fs_unlink]
  · intro fs2 p
    simp [process_queued_transcription, fs_unlink]

/-! Claims C4 and C5: the authentication service and the audit events of
the authentication stage. -/

lemma isPrefixB_iff_append [DecidableEq α] (sub l : List α) :
    isPrefixB sub l = true ↔ ∃ rest, l = sub ++ rest := by
  induction sub generalizing l with
  | nil => simp [isPrefixB]
  | cons a as ih =>
    cases l with
    | nil =>
      simp only [isPrefixB, List.cons_append]
      constructor
      · intro h
        cases h
      · rintro ⟨rest, h⟩
        cases h
    | cons b bs =>
      by_cases hab : a = b
      · subst hab
        simp [isPrefixB, ih]
      · simp only [isPrefixB, if_neg hab, List.cons_append, List.cons.injEq]
        constructor
        · intro h
          cases h
        · rintro ⟨rest, h1, h2⟩
          exact absurd h1.symm hab

lemma isPrefixB_append_self [DecidableEq α] (x y : List α) :
    isPrefixB x (x ++ y) = true :=
  (isPrefixB_iff_append x (x ++ y)).2 ⟨y, rfl⟩

lemma scan_api_keys_system_violation (api_key client_ip : String)
    (system_id user_agent : Option String) (l : List APIKeyConfig)
    (kc : APIKeyConfig) (hfind : find_key_config api_key l = some kc)
    (hip : ip_restriction_violated kc.allowed_ips client_ip = false)
    (hsys : system_restriction_violated kc.allowed_systems system_id = true) :
    scan_api_keys api_key client_ip system_id user_agent l =
      (false, none,
        [{ event_type := "api_key_system_violation", severity := "high",
           source_ip := some client_ip, source_system := system_id,
           api_key_used := some (kc.key.take 8 ++ "..."),
           user_agent := user_agent,
           description :=
             "API key used by unauthorized system " ++
               pyFormatOpt system_id }]) := by
  induction l with
  | nil => cases hfind
  | cons hd tl ih =>
    by_cases h : hd.key = api_key
    · rw [find_key_config, if_pos h] at hfind
      cases hfind
      simp [scan_api_keys, h, hip, hsys]
    · rw [find_key_config, if_neg h] at hfind
      rw [scan_api_keys, if_neg h]
      exact ih hfind

lemma scan_api_keys_valid (api_key client_ip : String)
    (system_id user_agent : Option String) (l : List APIKeyConfig)
    (kc : APIKeyConfig) (hfind : find_key_config api_key l = some kc)
    (hip : ip_restriction_violated kc.allowed_ips client_ip = false)
    (hsys : system_restriction_violated kc.allowed_systems system_id = false) :
    scan_api_keys api_key client_ip system_id user_agent l =
      (true, some (kc.key.take 8),
        [{ event_type := "api_key_used", severity := "info",
           source_ip := some client_ip, source_system := system_id,
           api_key_used := some (kc.key.take 8 ++ "..."),
           user_agent := user_agent,
           description :=
             "Valid API key used by system " ++ pyFormatOpt system_id }]) := by
  induction l with
  | nil => cases hfind
  | cons hd tl ih =>
    by_cases h : hd.key = api_key
    · rw [find_key_config, if_pos h] at hfind
      cases hfind
      simp [scan_api_keys, h, hip, hsys]
    · rw [find_key_config, if_neg h] at hfind
      rw [scan_api_keys, if_neg h]
      exact ih hfind

/-- C4, counterexample: with a descriptor restricted to system 100, a
validation of the matching key that supplies no system id at all is
accepted and emits `api_key_used` — not denied with
`api_key_system_violation` as the claim states. -/
theorem validate_api_key_no_system_counterexample :
    (validate_api_key cfgSystemRestricted "secret-key-1" "10.0.0.1"
        none none).1 = true
    ∧ ((validate_api_key cfgSystemRestricted "secret-key-1" "10.0.0.1"
        none none).2.2.map (fun e => (e.event_type, e.severity))) =
      [("api_key_used", "info")] := by
  exact ⟨rfl, rfl⟩

/-- C4, amended: for a descriptor with a nonempty `allowed_systems` list
(reached as the first match, with the legacy key not matching and the IP
restriction passing), validation with a supplied system id outside the
list is denied and emits `api_key_system_violation` with severity high;
a validation call that supplies no system id skips the system check and
is accepted with an `api_key_used` event. -/
theorem validate_api_key_system_restriction (cfg : IngestionConfig)
    (api_key client_ip : String) (user_agent : Option String)
    (kc : APIKeyConfig) (l : List String)
    (hleg : (optStrTruthy cfg.api_key && (some api_key = cfg.api_key)) = false)
    (hfind : find_key_config api_key cfg.api_keys = some kc)
    (hip : ip_restriction_violated kc.allowed_ips client_ip = false)
    (hsys : kc.allowed_systems = some l) (hne : l ≠ []) :
    (∀ s : String, s ≠ "" → l.contains s = false →
      validate_api_key cfg api_key client_ip (some s) user_agent =
        (false, none,
          [{ event_type := "api_key_system_violation", severity := "high",
             source_ip := some client_ip, source_system := some s,
             api_key_used := some (kc.key.take 8 ++ "..."),
             user_agent := user_agent,
             description := "API key used by unauthorized system " ++ s }]))
    ∧ validate_api_key cfg api_key client_ip none user_agent =
        (true, some (kc.key.take 8),
          [{ event_type := "api_key_used", severity := "info",
             source_ip := some client_ip, source_system := none,
             api_key_used := some (kc.key.take 8 ++ "..."),
             user_agent := user_agent,
             description := "Valid API key used by system None" }]) := by
  constructor
  · intro s hs hcont
    have hmem : s ∉ l := by simpa using hcont
    have hviol : system_restriction_violated kc.allowed_systems (some s) = true := by
      rw [hsys]
      simp [system_restriction_violated, hs, hmem, hne]
    rw [validate_api_key, if_neg (by simp [hleg])]
    exact scan_api_keys_system_violation api_key client_ip (some s)
      user_agent cfg.api_keys kc hfind hip hviol
  · have hviol : system_restriction_violated kc.allowed_systems none = false := by
      rw [hsys]
      rfl
    rw [validate_api_key, if_neg (by simp [hleg])]
    exact scan_api_keys_valid api_key client_ip none user_agent
      cfg.api_keys kc hfind hip hviol

/-- Witness for C4 at the concrete restricted configuration: system 7 is
denied with the high-severity violation event, a call without a system id
is accepted with `api_key_used`. -/
theorem validate_api_key_system_restriction_witness :
    (validate_api_key cfgSystemRestricted "secret-key-1" "10.0.0.1"
        (some "7") none).1 = false
    ∧ ((validate_api_key cfgSystemRestricted "secret-key-1" "10.0.0.1"
        (some "7") none).2.2.map (fun e => (e.event_type, e.severity))) =
      [("api_key_system_violation", "high")]
    ∧ (validate_api_key cfgSystemRestricted "secret-key-1" "10.0.0.1"
        none none).1 = true := by
  have h := validate_api_key_system_restriction cfgSystemRestricted
    "secret-key-1" "10.0.0.1" none
    { key := "secret-key-1", allowed_systems := some ["100"] } ["100"]
    rfl rfl rfl rfl (by decide)
  have h7 := h.1 "7" (by decide) (by decide)
  refine ⟨?_, ?_, ?_⟩
  · rw [h7]
  · rw [h7]
    rfl
  · rw [h.2]

lemma scan_api_keys_single_event (api_key client_ip : String)
    (system_id user_agent : Option String) (l : List APIKeyConfig) :
    ∃ ev, (scan_api_keys api_key client_ip system_id user_agent l).2.2 = [ev]
      ∧ (ev.event_type = "api_key_used"
         ∨ ev.event_type = "api_key_ip_violation"
         ∨ ev.event_type = "api_key_system_violation"
         ∨ ev.event_type = "invalid_api_key") := by
  induction l with
  | nil =>
    exact ⟨_, rfl, Or.inr (Or.inr (Or.inr rfl))⟩
  | cons hd tl ih =>
    by_cases h : hd.key = api_key
    · rw [scan_api_keys, if_pos h]
      by_cases hip : ip_restriction_violated hd.allowed_ips client_ip
      · rw [if_pos hip]
        exact ⟨_, rfl, Or.inr (Or.inl rfl)⟩
      · rw [if_neg hip]
        by_cases hsys : system_restriction_violated hd.allowed_systems system_id
        · rw [if_pos hsys]
          exact ⟨_, rfl, Or.inr (Or.inr (Or.inl rfl))⟩
        · rw [if_neg hsys]
          exact ⟨_, rfl, Or.inl rfl⟩
    · rw [scan_api_keys, if_neg h]
      exact ih

lemma validate_api_key_single_event (cfg : IngestionConfig)
    (api_key client_ip : String) (system_id user_agent : Option String) :
    ∃ ev, (validate_api_key cfg api_key client_ip system_id user_agent).2.2 = [ev]
      ∧ (ev.event_type = "api_key_used"
         ∨ ev.event_type = "api_key_ip_violation"
         ∨ ev.event_type = "api_key_system_violation"
         ∨ ev.event_type = "invalid_api_key") := by
  rw [validate_api_key]
  by_cases h : (optStrTruthy cfg.api_key && (some api_key = cfg.api_key)) = true
  · rw [if_pos h]
    exact ⟨_, rfl, Or.inl rfl⟩
  · rw [if_neg h]
    exact scan_api_keys_single_event api_key client_ip system_id user_agent
      cfg.api_keys

/-- C5, counterexample: with only the legacy key configured, a matching
upload request is admitted by the authentication stage of `upload_call`
without any audit event — zero of the four event kinds, not exactly
one. -/
theorem upload_call_auth_legacy_counterexample :
    (upload_call_auth cfgLegacyOnly (some "k") (some "123")
        "10.0.0.1" "ua").1 = .accepted (some "legacy")
    ∧ (upload_call_auth cfgLegacyOnly (some "k") (some "123")
        "10.0.0.1" "ua").2 = [] := by
  exact ⟨rfl, rfl⟩

/-- C5, amended: the authentication stage of `upload_call` produces
exactly one of the four events `api_key_used`, `api_key_ip_violation`,
`api_key_system_violation`, `invalid_api_key` precisely on the path that
reaches `validate_api_key` — enhanced keys configured and both the `key`
and the `system` form field supplied; with only the legacy key configured
it emits no audit event at all, and a request missing the key or the
system field is denied without an event. -/
theorem upload_call_auth_audit_events (cfg : IngestionConfig)
    (key system : Option String) (client_ip user_agent : String) :
    (cfg.api_keys ≠ [] → optStrTruthy key = true → optStrTruthy system = true →
      ∃ ev, (upload_call_auth cfg key system client_ip user_agent).2 = [ev]
        ∧ (ev.event_type = "api_key_used"
           ∨ ev.event_type = "api_key_ip_violation"
           ∨ ev.event_type = "api_key_system_violation"
           ∨ ev.event_type = "invalid_api_key"))
    ∧ (cfg.api_keys = [] →
        (upload_call_auth cfg key system client_ip user_agent).2 = [])
    ∧ ((optStrTruthy key = false ∨ optStrTruthy system = false) →
        (upload_call_auth cfg key system client_ip user_agent).2 = []) := by
  refine ⟨?_, ?_, ?_⟩
  · intro henh hk hs
    have henh' : cfg.api_keys.isEmpty = false := by
      simpa [List.isEmpty_iff] using henh
    obtain ⟨ev, hev, hkind⟩ := validate_api_key_single_event cfg
      (pyOrStr key "") client_ip system (some user_agent)
    refine ⟨ev, ?_, hkind⟩
    rw [upload_call_auth]
    simp only [henh', Bool.not_false, Bool.or_true, if_true, Bool.and_false,
      Bool.false_eq_true, if_false, hk, hs, Bool.and_self, if_true]
    rcases hval : validate_api_key cfg (pyOrStr key "") client_ip system
      (some user_agent) with ⟨b, kid, evs⟩
    rw [hval] at hev
    cases b <;> simpa using hev
  · intro hemp
    rw [upload_call_auth, hemp]
    by_cases hleg : optStrTruthy cfg.api_key = true
    · rw [if_pos (by rw [hleg]; rfl), if_pos (by rw [hleg]; rfl)]
      split <;> rfl
    · have hleg' : optStrTruthy cfg.api_key = false := by
        cases h : optStrTruthy cfg.api_key
        · rfl
        · exact absurd h hleg
      rw [if_neg (by rw [hleg']; simp)]
  · intro hmiss
    have hks : (optStrTruthy key && optStrTruthy system) = false := by
      rcases hmiss with h | h <;> simp [h]
    rw [upload_call_auth]
    split
    · split
      · split <;> rfl
      · rw [if_neg (by simp [hks])]
    · rfl

/-- Witness for C5: the enhanced configuration with key and system
supplied yields exactly one event of the four kinds, and the legacy-only
configuration yields the empty event list. -/
theorem upload_call_auth_audit_events_witness :
    (∃ ev, (upload_call_auth cfgSystemRestricted (some "secret-key-1")
        (some "100") "10.0.0.1" "ua").2 = [ev]
      ∧ (ev.event_type = "api_key_used"
         ∨ ev.event_type = "api_key_ip_violation"
         ∨ ev.event_type = "api_key_system_violation"
         ∨ ev.event_type = "invalid_api_key"))
    ∧ (upload_call_auth cfgLegacyOnly (some "k") (some "123")
        "10.0.0.1" "ua").2 = [] := by
  refine ⟨?_, ?_⟩
  · exact (upload_call_auth_audit_events cfgSystemRestricted
      (some "secret-key-1") (some "100") "10.0.0.1" "ua").1
      (by decide) rfl rfl
  · exact (upload_call_auth_audit_events cfgLegacyOnly
      (some "k") (some "123") "10.0.0.1" "ua").2.1 rfl

/-! Claim C6: the order of the validator checks. -/

set_option maxRecDepth 100000 in
/-- C6, counterexample: the default-configured validator rejects an
`.mp3`-named upload of admissible size whose content begins with `%PDF`
with the hostile-payload rejection (`PDF file detected`), not with the
magic-byte failure (`Invalid MP3 file header`) the claim names. -/
theorem upload_validator_order_counterexample :
    validate_upload_file defaultSecurityConfig pdfMp3File [] 0 =
      .error .pdf_detected
    ∧ validate_upload_file defaultSecurityConfig pdfMp3File [] 0 ≠
      .error .invalid_mp3_header := by
  have h : validate_upload_file defaultSecurityConfig pdfMp3File [] 0 =
      .error .pdf_detected := by rfl
  refine ⟨h, ?_⟩
  rw [h]
  simp

/-- C6, amended: the validator applies its checks in the order filename
safety, extension, declared MIME, size bounds, empty-content check,
hostile-payload heuristic, magic bytes, short-circuiting on the first
failure — the hostile scan runs before the magic-byte check (the source
marks it as the security priority).  Consequently every upload passing
the earlier checks whose content is at least 16 bytes and begins with
`%PDF` is rejected as a detected PDF, not with the invalid-MP3-header
failure. -/
theorem upload_validator_hostile_scan_first (cfg : SecurityConfig)
    (file : UploadFile) (tracking cleaned : List Int) (now : Int)
    (hscan : cfg.scan_for_malicious_content = true)
    (hrate : check_rate_limits cfg tracking now = .ok cleaned)
    (hbasics : validate_file_basics cfg file = .ok ())
    (hct : validate_content_type cfg file = .ok ())
    (hsize : validate_file_size cfg (effectiveSize file) = .ok ())
    (hlen : 16 ≤ file.content.length)
    (hpdf : isPrefixB (strBytes "%PDF") file.content = true) :
    validate_upload_file cfg file tracking now = .error .pdf_detected := by
  obtain ⟨rest, hc⟩ := (isPrefixB_iff_append _ _).1 hpdf
  have hpdfb : strBytes "%PDF" = [37, 80, 68, 70] := by decide
  have hscanres : scan_malicious_content file.content = .error .pdf_detected := by
    rw [scan_malicious_content, if_neg (by omega)]
    rw [hc, hpdfb]
    rw [if_neg (by simp [strBytes, isPrefixB])]
    rw [if_neg (by simp [isPrefixB])]
    rw [if_pos (by rw [← hpdfb]; exact isPrefixB_append_self _ _)]
  have hne : file.content.isEmpty = false := by
    cases hcc : file.content with
    | nil => rw [hcc] at hlen; simp at hlen
    | cons a l => simp [hcc]
  have hcontent : validate_file_content cfg file = .error .pdf_detected := by
    rw [validate_file_content]
    simp only [hne, Bool.false_eq_true, if_false, hscan, if_true, hscanres]
  rw [validate_upload_file, hrate, hbasics, hct, hsize]
  simp only [hscan, Bool.or_true, if_true, hcontent]

set_option maxRecDepth 100000 in
/-- Witness for C6: the concrete `%PDF` upload satisfies every
hypothesis of the amended ordering theorem. -/
theorem upload_validator_hostile_scan_first_witness :
    validate_upload_file defaultSecurityConfig pdfMp3File [] 0 =
      .error .pdf_detected :=
  upload_validator_hostile_scan_first defaultSecurityConfig pdfMp3File
    [] [] 0 rfl rfl rfl rfl rfl (by decide) rfl

/-! Claim C1: atomicity of `store_complete_transcription`. -/

lemma insert_segments_loop_ok (segs : List SpeakerSegmentModel)
    (st : Store) (cid stepIdx : Nat) (failAt : Option Nat) (st' : Store)
    (h : insert_segments_loop st cid segs stepIdx failAt = .ok st') :
    st'.radio_calls = st.radio_calls
    ∧ st'.transcriptions = st.transcriptions
    ∧ st'.speaker_segments = st.speaker_segments ++
        segs.map (fun g => { g with call_id := cid }) := by
  induction segs generalizing st stepIdx with
  | nil =>
    rw [insert_segments_loop] at h
    cases h
    simp
  | cons seg rest ih =>
    rw [insert_segments_loop] at h
    by_cases hf : failAt = some stepIdx
    · rw [if_pos hf] at h
      cases h
    · rw [if_neg hf] at h
      obtain ⟨h1, h2, h3⟩ := ih _ _ h
      refine ⟨h1, h2, ?_⟩
      rw [h3]
      simp

/-- C1: the `store_complete_transcription` transaction is all-or-nothing.
When it commits, the store contains the new call row with
`transcription_status = "completed"` and `transcribed_at` set, the
transcription row, and every segment row in the given order; when any
statement of the transaction raises, the rollback leaves the store the
caller observes exactly unchanged.  Readers only ever see one of these
two states — the transaction is the single atomic transition of the
model, so no proper subset of the rows is observable. -/
theorem store_complete_transcription_atomic (st : Store)
    (radio_call : RadioCallCreate) (transcription : TranscriptionCreate)
    (speaker_segments : List SpeakerSegmentModel) (failAt : Option Nat)
    (now : Int)
    (hfresh : ∀ r ∈ st.radio_calls, r.call_id ≠ radio_call.call_id) :
    (∀ st', store_complete_transcription_txn st radio_call transcription
        speaker_segments failAt now = .ok st' →
      st'.radio_calls = st.radio_calls ++
        [callRowOf radio_call "completed" (some now)]
      ∧ st'.transcriptions = st.transcriptions ++
          [{ transcription with call_id := radio_call.call_id }]
      ∧ st'.speaker_segments = st.speaker_segments ++
          speaker_segments.map
            (fun g => { g with call_id := radio_call.call_id }))
    ∧ (∀ e, store_complete_transcription_txn st radio_call transcription
        speaker_segments failAt now = .error e →
      (store_complete_transcription st radio_call transcription
        speaker_segments failAt now).1 = st) := by
  constructor
  · intro st' h
    rw [store_complete_transcription_txn] at h
    dsimp only at h
    by_cases h0 : failAt = some 0
    · rw [if_pos h0] at h
      cases h
    · rw [if_neg h0] at h
      by_cases h1 : failAt = some 1
      · rw [if_pos h1] at h
        cases h
      · rw [if_neg h1] at h
        rcases hloop : insert_segments_loop
            { st with
                radio_calls := st.radio_calls ++
                  [callRowOf radio_call "processing" none],
                transcriptions := st.transcriptions ++
                  [{ transcription with call_id := radio_call.call_id }] }
            radio_call.call_id speaker_segments 2 failAt with e3 | st3
        · rw [hloop] at h
          simp at h
        · rw [hloop] at h
          dsimp only at h
          obtain ⟨hr, ht, hs⟩ := insert_segments_loop_ok _ _ _ _ _ _ hloop
          by_cases h2 : failAt = some (2 + speaker_segments.length)
          · rw [if_pos h2] at h
            cases h
          · rw [if_neg h2] at h
            cases h
            refine ⟨?_, by simpa using ht, by simpa using hs⟩
            simp only [hr]
            rw [List.map_append]
            have hkeep : st.radio_calls.map (fun r =>
                if r.call_id = radio_call.call_id then
                  { r with transcription_status := "completed",
                           transcribed_at := some now }
                else r) = st.radio_calls := by
              have hcongr : st.radio_calls.map (fun r =>
                  if r.call_id = radio_call.call_id then
                    { r with transcription_status := "completed",
                             transcribed_at := some now }
                  else r) = st.radio_calls.map id :=
                List.map_congr_left (fun r hr' => by simp [hfresh r hr'])
              simpa using hcongr
            rw [hkeep]
            simp [callRowOf]
  · intro e h
    rw [store_complete_transcription, h]

/-- Witness for C1: on the empty store the committed transaction contains
exactly the three kinds of rows, and with a fault injected at the
transcription insert the rolled-back store is unchanged. -/
theorem store_complete_transcription_atomic_witness :
    (store_complete_transcription exStore0 exRC exTR [exSeg] none 7).1.radio_calls
      = [callRowOf exRC "completed" (some 7)]
    ∧ (store_complete_transcription exStore0 exRC exTR [exSeg] none
        7).1.speaker_segments = [exSeg]
    ∧ (store_complete_transcription exStore0 exRC exTR [exSeg] (some 1) 7).1
      = exStore0 := by
  have hok := (store_complete_transcription_atomic exStore0 exRC exTR [exSeg]
    none 7 (by intro r hr; cases hr)).1
    ((store_complete_transcription exStore0 exRC exTR [exSeg] none 7).1)
    (by rfl)
  have herr := (store_complete_transcription_atomic exStore0 exRC exTR [exSeg]
    (some 1) 7 (by intro r hr; cases hr)).2
    "transcriptions insert failed" (by rfl)
  refine ⟨?_, ?_, herr⟩
  · rw [hok.1]
    rfl
  · rw [hok.2.2]
    rfl

/-! Claim C10: disjointness of the three tracking maps and correctness of
`get_task_status`, by an inductive invariant over the reachable states. -/

lemma qinv_init (n : Nat) : QInv (initial_queue_state n) := by
  constructor <;> simp [initial_queue_state, MapsDisjoint]

lemma qinv_mark (s₀ : QState) (t : QTask) (now : Int) (hinv : QInv s₀)
    (hsome : (s₀.active_tasks t.task_id).isSome = true)
    (hmain : ∀ u ∈ s₀.main_queue, u.task_id ≠ t.task_id)
    (hretry : ∀ u ∈ s₀.retry_queue, u.task_id ≠ t.task_id) :
    QInv (mark_task_failed s₀ t now).1 := by
  obtain ⟨u, hu⟩ := Option.isSome_iff_exists.1 hsome
  have hcompnone : s₀.completed_tasks t.task_id = none :=
    ((hinv.disjoint t.task_id).1 (by rw [hu]; rfl)).1
  have htlt : t.task_id < s₀.next_id := (hinv.active_lt _ _ hu).2
  refine ⟨?_, ?_, ?_, ?_, ?_, ?_, ?_⟩
  · intro id
    by_cases hid : id = t.task_id
    · subst hid
      constructor
      · intro h
        simp [mark_task_failed, TaskMap.erase] at h
      · intro h
        simp only [mark_task_failed] at h ⊢
        rw [hcompnone] at h
        cases h
    · constructor
      · intro h
        simp only [mark_task_failed, TaskMap.erase, if_neg hid] at h
        simp only [mark_task_failed, TaskMap.insert, if_neg hid]
        exact (hinv.disjoint id).1 h
      · intro h
        simp only [mark_task_failed] at h ⊢
        simp only [TaskMap.insert, if_neg hid]
        exact (hinv.disjoint id).2 h
  · intro id u' h
    simp only [mark_task_failed, TaskMap.erase] at h
    by_cases hid : id = t.task_id
    · rw [if_pos hid] at h
      cases h
    · rw [if_neg hid] at h
      exact hinv.active_lt id u' h
  · intro id u' h
    simp only [mark_task_failed] at h
    exact hinv.completed_lt id u' h
  · intro id u' h
    simp only [mark_task_failed, TaskMap.insert] at h
    by_cases hid : id = t.task_id
    · rw [if_pos hid] at h
      cases h
      exact ⟨hid.symm ▸ rfl, hid ▸ htlt⟩
    · rw [if_neg hid] at h
      exact hinv.failed_lt id u' h
  · intro u' hu'
    simp only [mark_task_failed, TaskMap.erase]
    rw [if_neg (hmain u' hu')]
    exact hinv.main_active u' hu'
  · intro u' hu'
    simp only [mark_task_failed, TaskMap.erase]
    rw [if_neg (hretry u' hu')]
    exact hinv.retry_active u' hu'
  · simpa [mark_task_failed] using hinv.queue_nodup

lemma queue_id_lt (s : QState) (hinv : QInv s) :
    ∀ u ∈ s.main_queue ++ s.retry_queue, u.task_id < s.next_id := by
  intro u hu
  have hsome : (s.active_tasks u.task_id).isSome = true := by
    rcases List.mem_append.1 hu with h | h
    · exact hinv.main_active u h
    · exact hinv.retry_active u h
  obtain ⟨v, hv⟩ := Option.isSome_iff_exists.1 hsome
  exact (hinv.active_lt _ _ hv).2

lemma qinv_enqueue (s : QState) (hinv : QInv s) : QInv (enqueue_task s).1 := by
  by_cases hroom : s.main_queue.length < s.max_queue_size
  · simp only [enqueue_task, if_pos hroom]
    refine ⟨?_, ?_, ?_, ?_, ?_, ?_, ?_⟩
    · intro id
      by_cases hid : id = s.next_id
      · subst hid
        constructor
        · intro _
          constructor
          · cases hc : s.completed_tasks s.next_id with
            | none => rfl
            | some u => exact absurd (hinv.completed_lt _ _ hc).2 (by omega)
          · cases hc : s.failed_tasks s.next_id with
            | none => rfl
            | some u => exact absurd (hinv.failed_lt _ _ hc).2 (by omega)
        · intro h
          obtain ⟨u, hu⟩ := Option.isSome_iff_exists.1 h
          exact absurd (hinv.completed_lt _ _ hu).2 (by omega)
      · constructor
        · intro h
          simp only [TaskMap.insert, if_neg hid] at h
          exact (hinv.disjoint id).1 h
        · exact (hinv.disjoint id).2
    · intro id t h
      simp only [TaskMap.insert] at h
      by_cases hid : id = s.next_id
      · rw [if_pos hid] at h
        cases h
        subst hid
        exact ⟨rfl, Nat.lt_succ_self _⟩
      · rw [if_neg hid] at h
        obtain ⟨h1, h2⟩ := hinv.active_lt id t h
        exact ⟨h1, Nat.lt_succ_of_lt h2⟩
    · intro id t h
      obtain ⟨h1, h2⟩ := hinv.completed_lt id t h
      exact ⟨h1, Nat.lt_succ_of_lt h2⟩
    · intro id t h
      obtain ⟨h1, h2⟩ := hinv.failed_lt id t h
      exact ⟨h1, Nat.lt_succ_of_lt h2⟩
    · intro t ht
      rcases List.mem_append.1 ht with hm | hm
      · have := hinv.main_active t hm
        simp only [TaskMap.insert]
        by_cases hid : t.task_id = s.next_id
        · rw [if_pos hid]
          rfl
        · rw [if_neg hid]
          exact this
      · have heq : t = ({ task_id := s.next_id,
                          status := TaskStatus.pending,
                          retry_count := 0, max_retries := 3,
                          completed_at := none } : QTask) := by
          simpa using hm
        subst heq
        simp [TaskMap.insert]
    · intro t ht
      have := hinv.retry_active t ht
      simp only [TaskMap.insert]
      by_cases hid : t.task_id = s.next_id
      · rw [if_pos hid]
        rfl
      · rw [if_neg hid]
        exact this
    · have hfresh : ∀ u ∈ s.main_queue ++ s.retry_queue,
          u.task_id ≠ s.next_id := by
        intro u hu he
        have := queue_id_lt s hinv u hu
        omega
      rw [List.append_assoc]
      have hperm : List.Perm
          (s.main_queue
            ++ ({ task_id := s.next_id, status := TaskStatus.pending,
                  retry_count := 0, max_retries := 3,
                  completed_at := none } : QTask) :: s.retry_queue)
          (({ task_id := s.next_id, status := TaskStatus.pending,
              retry_count := 0, max_retries := 3,
              completed_at := none } : QTask)
            :: (s.main_queue ++ s.retry_queue)) := List.perm_middle
      refine ((hperm.map QTask.task_id).nodup_iff).2 ?_
      rw [List.map_cons]
      refine List.Nodup.cons ?_ hinv.queue_nodup
      intro hmem
      obtain ⟨u, hu, he⟩ := List.mem_map.1 hmem
      exact hfresh u hu he
  · simp only [enqueue_task, if_neg hroom]
    refine ⟨hinv.disjoint, ?_, ?_, ?_, hinv.main_active, hinv.retry_active,
      hinv.queue_nodup⟩
    · intro id t h
      obtain ⟨h1, h2⟩ := hinv.active_lt id t h
      exact ⟨h1, Nat.lt_succ_of_lt h2⟩
    · intro id t h
      obtain ⟨h1, h2⟩ := hinv.completed_lt id t h
      exact ⟨h1, Nat.lt_succ_of_lt h2⟩
    · intro id t h
      obtain ⟨h1, h2⟩ := hinv.failed_lt id t h
      exact ⟨h1, Nat.lt_succ_of_lt h2⟩

lemma head_main_facts (s : QState) (t : QTask) (rest : List QTask)
    (hinv : QInv s) (hq : s.main_queue = t :: rest) :
    (s.active_tasks t.task_id).isSome = true
    ∧ (∀ u ∈ rest, u.task_id ≠ t.task_id)
    ∧ (∀ u ∈ s.retry_queue, u.task_id ≠ t.task_id)
    ∧ ((rest ++ s.retry_queue).map QTask.task_id).Nodup := by
  have hmem : t ∈ s.main_queue := by
    rw [hq]
    exact List.mem_cons_self _ _
  have hnd := hinv.queue_nodup
  rw [hq, List.cons_append, List.map_cons] at hnd
  have h1 := List.nodup_cons.1 hnd
  refine ⟨hinv.main_active t hmem, ?_, ?_, h1.2⟩
  · intro u hu he
    exact h1.1 (List.mem_map.2 ⟨u, List.mem_append.2 (Or.inl hu), he⟩)
  · intro u hu he
    exact h1.1 (List.mem_map.2 ⟨u, List.mem_append.2 (Or.inr hu), he⟩)

lemma head_retry_facts (s : QState) (t : QTask) (rest : List QTask)
    (hinv : QInv s) (hq : s.retry_queue = t :: rest) :
    (s.active_tasks t.task_id).isSome = true
    ∧ (∀ u ∈ s.main_queue, u.task_id ≠ t.task_id)
    ∧ (∀ u ∈ rest, u.task_id ≠ t.task_id)
    ∧ ((s.main_queue ++ rest).map QTask.task_id).Nodup := by
  have hmem : t ∈ s.retry_queue := by
    rw [hq]
    exact List.mem_cons_self _ _
  have hnd := hinv.queue_nodup
  rw [hq] at hnd
  have hperm : List.Perm (s.main_queue ++ t :: rest)
      (t :: (s.main_queue ++ rest)) :=
    List.perm_middle
  have hnd' := (hperm.map QTask.task_id).nodup_iff.1 hnd
  rw [List.map_cons] at hnd'
  have h1 := List.nodup_cons.1 hnd'
  refine ⟨hinv.retry_active t hmem, ?_, ?_, h1.2⟩
  · intro u hu he
    exact h1.1 (List.mem_map.2 ⟨u, List.mem_append.2 (Or.inl hu), he⟩)
  · intro u hu he
    exact h1.1 (List.mem_map.2 ⟨u, List.mem_append.2 (Or.inr hu), he⟩)

lemma qinv_after_dequeue (s : QState) (t : QTask) (rest : List QTask)
    (st : QueueStatsModel) (hinv : QInv s) (hq : s.main_queue = t :: rest) :
    QInv { s with main_queue := rest, stats := st } := by
  obtain ⟨_, _, _, hnd⟩ := head_main_facts s t rest hinv hq
  refine ⟨hinv.disjoint, hinv.active_lt, hinv.completed_lt, hinv.failed_lt,
    ?_, hinv.retry_active, hnd⟩
  intro u hu
  exact hinv.main_active u (by rw [hq]; exact List.mem_cons_of_mem _ hu)

lemma qinv_process_success (s : QState) (t : QTask) (rest : List QTask)
    (now : Int) (hinv : QInv s) (hq : s.main_queue = t :: rest) :
    QInv (process_task_success s t rest now) := by
  obtain ⟨hsome, hrest, hretry, hnd⟩ := head_main_facts s t rest hinv hq
  obtain ⟨u, hu⟩ := Option.isSome_iff_exists.1 hsome
  have hcomp_none : s.completed_tasks t.task_id = none :=
    ((hinv.disjoint _).1 (by rw [hu]; rfl)).1
  have hfail_none : s.failed_tasks t.task_id = none :=
    ((hinv.disjoint _).1 (by rw [hu]; rfl)).2
  have htlt : t.task_id < s.next_id := (hinv.active_lt _ _ hu).2
  refine ⟨?_, ?_, ?_, ?_, ?_, ?_, ?_⟩
  · intro id
    by_cases hid : id = t.task_id
    · subst hid
      constructor
      · intro h
        simp [process_task_success, TaskMap.erase] at h
      · intro _
        simpa [process_task_success] using hfail_none
    · constructor
      · intro h
        simp only [process_task_success, TaskMap.erase, if_neg hid] at h
        have := (hinv.disjoint id).1 h
        simp only [process_task_success, TaskMap.insert, if_neg hid]
        exact this
      · intro h
        simp only [process_task_success, TaskMap.insert, if_neg hid] at h
        simp only [process_task_success]
        exact (hinv.disjoint id).2 h
  · intro id v h
    simp only [process_task_success, TaskMap.erase] at h
    by_cases hid : id = t.task_id
    · rw [if_pos hid] at h
      cases h
    · rw [if_neg hid] at h
      exact hinv.active_lt id v h
  · intro id v h
    simp only [process_task_success, TaskMap.insert] at h
    by_cases hid : id = t.task_id
    · rw [if_pos hid] at h
      cases h
      subst hid
      exact ⟨rfl, htlt⟩
    · rw [if_neg hid] at h
      exact hinv.completed_lt id v h
  · intro id v h
    simp only [process_task_success] at h
    exact hinv.failed_lt id v h
  · intro v hv
    simp only [process_task_success] at hv
    simp only [process_task_success, TaskMap.erase]
    rw [if_neg (hrest v hv)]
    exact hinv.main_active v (by rw [hq]; exact List.mem_cons_of_mem _ hv)
  · intro v hv
    simp only [process_task_success] at hv
    simp only [process_task_success, TaskMap.erase]
    rw [if_neg (hretry v hv)]
    exact hinv.retry_active v hv
  · simpa [process_task_success] using hnd

lemma qinv_process_fail_retry (s : QState) (t : QTask) (rest : List QTask)
    (hinv : QInv s) (hq : s.main_queue = t :: rest) :
    QInv (process_task_fail_retry s t rest) := by
  obtain ⟨hsome, hrest, hretry, hnd⟩ := head_main_facts s t rest hinv hq
  obtain ⟨u, hu⟩ := Option.isSome_iff_exists.1 hsome
  have hcomp_none : s.completed_tasks t.task_id = none :=
    ((hinv.disjoint _).1 (by rw [hu]; rfl)).1
  have hfail_none : s.failed_tasks t.task_id = none :=
    ((hinv.disjoint _).1 (by rw [hu]; rfl)).2
  have htlt : t.task_id < s.next_id := (hinv.active_lt _ _ hu).2
  refine ⟨?_, ?_, ?_, ?_, ?_, ?_, ?_⟩
  · intro id
    by_cases hid : id = t.task_id
    · subst hid
      constructor
      · intro _
        exact ⟨hcomp_none, hfail_none⟩
      · intro h
        simp only [process_task_fail_retry] at h
        rw [hcomp_none] at h
        cases h
    · constructor
      · intro h
        simp only [process_task_fail_retry, TaskMap.insert, if_neg hid] at h
        exact (hinv.disjoint id).1 h
      · intro h
        simp only [process_task_fail_retry] at h
        exact (hinv.disjoint id).2 h
  · intro id v h
    simp only [process_task_fail_retry, TaskMap.insert] at h
    by_cases hid : id = t.task_id
    · rw [if_pos hid] at h
      cases h
      subst hid
      exact ⟨rfl, htlt⟩
    · rw [if_neg hid] at h
      exact hinv.active_lt id v h
  · intro id v h
    simp only [process_task_fail_retry] at h
    exact hinv.completed_lt id v h
  · intro id v h
    simp only [process_task_fail_retry] at h
    exact hinv.failed_lt id v h
  · intro v hv
    simp only [process_task_fail_retry] at hv
    simp only [process_task_fail_retry, TaskMap.insert]
    by_cases hid : v.task_id = t.task_id
    · rw [if_pos hid]
      rfl
    · rw [if_neg hid]
      exact hinv.main_active v (by rw [hq]; exact List.mem_cons_of_mem _ hv)
  · intro v hv
    simp only [process_task_fail_retry] at hv
    simp only [process_task_fail_retry, TaskMap.insert]
    rcases List.mem_append.1 hv with hm | hm
    · by_cases hid : v.task_id = t.task_id
      · rw [if_pos hid]
        rfl
      · rw [if_neg hid]
        exact hinv.retry_active v hm
    · have heq : v = ({ t with status := TaskStatus.retrying, retry_count := t.retry_count + 1 } : QTask) := by
        simpa using hm
      subst heq
      simp
  · simp only [process_task_fail_retry]
    set t' : QTask := { t with status := TaskStatus.retrying, retry_count := t.retry_count + 1 } with ht'
    rw [← List.append_assoc]
    have hperm : List.Perm ((rest ++ s.retry_queue) ++ [t'])
        (t' :: (rest ++ s.retry_queue)) :=
      List.perm_append_singleton _ _
    refine ((hperm.map QTask.task_id).nodup_iff).2 ?_
    rw [List.map_cons]
    refine List.Nodup.cons ?_ hnd
    intro hmem
    obtain ⟨w, hw, he⟩ := List.mem_map.1 hmem
    rcases List.mem_append.1 hw with hm | hm
    · exact hrest w hm he
    · exact hretry w hm he

lemma qinv_process_fail_retry_full (s : QState) (t : QTask)
    (rest : List QTask) (now : Int) (hinv : QInv s)
    (hq : s.main_queue = t :: rest) :
    QInv (process_task_fail_retry_full s t rest now) := by
  obtain ⟨hsome, hrest, hretry, _⟩ := head_main_facts s t rest hinv hq
  exact qinv_mark _ _ _
    (qinv_after_dequeue s t rest _ hinv hq) hsome
    (fun u hu => hrest u hu) (fun u hu => hretry u hu)

lemma qinv_process_fail_permanent (s : QState) (t : QTask)
    (rest : List QTask) (now : Int) (hinv : QInv s)
    (hq : s.main_queue = t :: rest) :
    QInv (process_task_fail_permanent s t rest now) := by
  obtain ⟨hsome, hrest, hretry, _⟩ := head_main_facts s t rest hinv hq
  exact qinv_mark _ _ _
    (qinv_after_dequeue s t rest _ hinv hq) hsome
    (fun u hu => hrest u hu) (fun u hu => hretry u hu)

lemma qinv_retry_requeue (s : QState) (t : QTask) (rest : List QTask)
    (hinv : QInv s) (hq : s.retry_queue = t :: rest) :
    QInv (retry_requeue s t rest) := by
  obtain ⟨hsome, hmain, hrest, hnd⟩ := head_retry_facts s t rest hinv hq
  refine ⟨hinv.disjoint, hinv.active_lt, hinv.completed_lt, hinv.failed_lt,
    ?_, ?_, ?_⟩
  · intro v hv
    simp only [retry_requeue] at hv
    rcases List.mem_append.1 hv with hm | hm
    · exact hinv.main_active v hm
    · have heq : v = t := by simpa using hm
      subst heq
      exact hsome
  · intro v hv
    simp only [retry_requeue] at hv
    exact hinv.retry_active v (by rw [hq]; exact List.mem_cons_of_mem _ hv)
  · simp only [retry_requeue]
    rw [List.append_assoc]
    have hnd' := hinv.queue_nodup
    rw [hq] at hnd'
    simpa using hnd'

lemma qinv_retry_put_back (s : QState) (t : QTask) (rest : List QTask)
    (hinv : QInv s) (hq : s.retry_queue = t :: rest) :
    QInv (retry_put_back s t rest) := by
  refine ⟨hinv.disjoint, hinv.active_lt, hinv.completed_lt, hinv.failed_lt,
    hinv.main_active, ?_, ?_⟩
  · intro v hv
    simp only [retry_put_back] at hv
    rcases List.mem_append.1 hv with hm | hm
    · exact hinv.retry_active v (by rw [hq]; exact List.mem_cons_of_mem _ hm)
    · have heq : v = t := by simpa using hm
      subst heq
      exact hinv.retry_active _ (by rw [hq]; exact List.mem_cons_self _ _)
  · simp only [retry_put_back]
    have hnd' := hinv.queue_nodup
    rw [hq] at hnd'
    have hperm : List.Perm (s.main_queue ++ (rest ++ [t]))
        (s.main_queue ++ t :: rest) :=
      List.Perm.append_left s.main_queue (List.perm_append_singleton _ _)
    exact ((hperm.map QTask.task_id).nodup_iff).2 hnd'

lemma qinv_retry_drop (s : QState) (t : QTask) (rest : List QTask)
    (now : Int) (hinv : QInv s) (hq : s.retry_queue = t :: rest) :
    QInv (retry_drop s t rest now) := by
  obtain ⟨hsome, hmain, hrest, hnd⟩ := head_retry_facts s t rest hinv hq
  have h₀ : QInv { s with retry_queue := rest } := by
    refine ⟨hinv.disjoint, hinv.active_lt, hinv.completed_lt, hinv.failed_lt,
      hinv.main_active, ?_, hnd⟩
    intro u hu
    exact hinv.retry_active u (by rw [hq]; exact List.mem_cons_of_mem _ hu)
  exact qinv_mark _ _ _ h₀ hsome
    (fun u hu => hmain u hu) (fun u hu => hrest u hu)

lemma qinv_cleanup (s : QState) (cutoff : Int) (hinv : QInv s) :
    QInv (cleanup_old_tasks s cutoff) := by
  have hcsub : ∀ i t,
      (cleanup_old_tasks s cutoff).completed_tasks i = some t →
      s.completed_tasks i = some t := by
    intro i t h
    simp only [cleanup_old_tasks] at h
    cases hc : s.completed_tasks i with
    | none =>
      rw [hc] at h
      cases h
    | some u =>
      rw [hc] at h
      dsimp only at h
      cases hca : u.completed_at with
      | none =>
        rw [hca] at h
        exact h
      | some ts =>
        rw [hca] at h
        dsimp only at h
        by_cases hlt : ts < cutoff
        · rw [if_pos hlt] at h
          cases h
        · rw [if_neg hlt] at h
          exact h
  have hfsub : ∀ i t,
      (cleanup_old_tasks s cutoff).failed_tasks i = some t →
      s.failed_tasks i = some t := by
    intro i t h
    simp only [cleanup_old_tasks] at h
    cases hc : s.failed_tasks i with
    | none =>
      rw [hc] at h
      cases h
    | some u =>
      rw [hc] at h
      dsimp only at h
      cases hca : u.completed_at with
      | none =>
        rw [hca] at h
        exact h
      | some ts =>
        rw [hca] at h
        dsimp only at h
        by_cases hlt : ts < cutoff
        · rw [if_pos hlt] at h
          cases h
        · rw [if_neg hlt] at h
          exact h
  have hcnone : ∀ i, s.completed_tasks i = none →
      (cleanup_old_tasks s cutoff).completed_tasks i = none := by
    intro i h
    simp only [cleanup_old_tasks]
    rw [h]
  have hfnone : ∀ i, s.failed_tasks i = none →
      (cleanup_old_tasks s cutoff).failed_tasks i = none := by
    intro i h
    simp only [cleanup_old_tasks]
    rw [h]
  refine ⟨?_, hinv.active_lt, ?_, ?_, hinv.main_active, hinv.retry_active,
    hinv.queue_nodup⟩
  · intro id
    constructor
    · intro h
      have hold := (hinv.disjoint id).1 h
      exact ⟨hcnone id hold.1, hfnone id hold.2⟩
    · intro h
      obtain ⟨u, hu⟩ := Option.isSome_iff_exists.1 h
      have hold := (hinv.disjoint id).2 (by rw [hcsub id u hu]; rfl)
      exact hfnone id hold
  · intro id t h
    exact hinv.completed_lt id t (hcsub id t h)
  · intro id t h
    exact hinv.failed_lt id t (hfsub id t h)

lemma qinv_step {s s' : QState} (hinv : QInv s) (hstep : QStep s s') :
    QInv s' := by
  cases hstep with
  | enqueue => exact qinv_enqueue s hinv
  | process_success t rest now hq => exact qinv_process_success s t rest now hinv hq
  | process_fail_retry t rest hq hr hroom =>
    exact qinv_process_fail_retry s t rest hinv hq
  | process_fail_retry_full t rest now hq hr hfull =>
    exact qinv_process_fail_retry_full s t rest now hinv hq
  | process_fail_permanent t rest now hq hr =>
    exact qinv_process_fail_permanent s t rest now hinv hq
  | retry_requeue t rest hq hroom => exact qinv_retry_requeue s t rest hinv hq
  | retry_put_back t rest hq hfull hroom =>
    exact qinv_retry_put_back s t rest hinv hq
  | retry_drop t rest now hq hfull hnoroom =>
    exact qinv_retry_drop s t rest now hinv hq
  | cleanup cutoff => exact qinv_cleanup s cutoff hinv

lemma qinv_reachable {s : QState} (h : QReachable s) : QInv s := by
  induction h with
  | init n => exact qinv_init n
  | step hr hstep ih => exact qinv_step ih hstep

/-- C10: at every reachable state of the work queue each task id occurs
in at most one of the three tracking maps, every operation of the step
relation (enqueue, the processing outcomes, the retry shuffler, cleanup)
preserves this disjointness, and `get_task_status` returns a task exactly
when the id is present in one of the three maps and `none` otherwise. -/
theorem task_queue_tracking (s : QState) (hreach : QReachable s) :
    MapsDisjoint s
    ∧ (∀ id, get_task_status s id = none ↔
        (s.active_tasks id = none ∧ s.completed_tasks id = none ∧
          s.failed_tasks id = none))
    ∧ (∀ id t, (s.active_tasks id = some t ∨ s.completed_tasks id = some t ∨
        s.failed_tasks id = some t) → get_task_status s id = some t) := by
  have hinv := qinv_reachable hreach
  refine ⟨hinv.disjoint, ?_, ?_⟩
  · intro id
    cases ha : s.active_tasks id with
    | some t => simp [get_task_status, ha]
    | none =>
      cases hc : s.completed_tasks id with
      | some t => simp [get_task_status, ha, hc]
      | none => simp [get_task_status, ha, hc]
  · intro id t h
    rcases h with ha | hc | hf
    · simp [get_task_status, ha]
    · have hanone : s.active_tasks id = none := by
        cases ha : s.active_tasks id with
        | none => rfl
        | some u =>
          have hd := ((hinv.disjoint id).1 (by rw [ha]; rfl)).1
          rw [hd] at hc
          cases hc
      simp [get_task_status, hanone, hc]
    · have hanone : s.active_tasks id = none := by
        cases ha : s.active_tasks id with
        | none => rfl
        | some u =>
          have hd := ((hinv.disjoint id).1 (by rw [ha]; rfl)).2
          rw [hd] at hf
          cases hf
      have hcnone : s.completed_tasks id = none := by
        cases hc : s.completed_tasks id with
        | none => rfl
        | some u =>
          have hd := (hinv.disjoint id).2 (by rw [hc]; rfl)
          rw [hd] at hf
          cases hf
      simp [get_task_status, hanone, hcnone, hf]

/-- Witness for C10 at a concrete two-step reachable state: after one
enqueue on a fresh queue, `get_task_status` finds the enqueued task under
its id and reports `none` for an untracked id. -/
theorem task_queue_tracking_witness :
    get_task_status (enqueue_task (initial_queue_state 10)).1 0 =
      some { task_id := 0, status := .pending, retry_count := 0,
             max_retries := 3, completed_at := none }
    ∧ get_task_status (enqueue_task (initial_queue_state 10)).1 1 = none := by
  have h := task_queue_tracking (enqueue_task (initial_queue_state 10)).1
    (QReachable.step (QReachable.init 10) (QStep.enqueue _))
  constructor
  · exact h.2.2 0 _ (Or.inl (by rfl))
  · exact (h.2.1 1).2 ⟨rfl, rfl, rfl⟩

/-! Claim C2: the multipart round trip.  The lemma stack below works out
the behaviour of the byte-level parser on the standard encoding. -/

lemma isPrefixB_append_cancel [DecidableEq α] (X Y Z : List α) :
    isPrefixB (X ++ Y) (X ++ Z) = isPrefixB Y Z := by
  induction X with
  | nil => rfl
  | cons x X' ih => simp [isPrefixB, ih]

lemma isPrefixB_self [DecidableEq α] (l : List α) : isPrefixB l l = true :=
  (isPrefixB_iff_append l l).2 ⟨[], by simp⟩

lemma containsSub_of_isPrefixB [DecidableEq α] {sep l : List α}
    (h : isPrefixB sep l = true) : containsSub sep l = true := by
  cases l with
  | nil =>
    cases sep with
    | nil => rfl
    | cons s st => cases h
  | cons a l' =>
    rw [containsSub, h, Bool.true_or]

lemma isPrefixB_append_split [DecidableEq α] (sep p tail : List α)
    (h : isPrefixB sep (p ++ tail) = true) :
    isPrefixB sep p = true ∨ isPrefixB p sep = true := by
  induction p generalizing sep with
  | nil =>
    right
    rfl
  | cons a p' ih =>
    cases sep with
    | nil =>
      left
      rfl
    | cons s0 st =>
      rw [List.cons_append] at h
      rw [isPrefixB] at h
      by_cases hsa : s0 = a
      · subst hsa
        rw [if_pos rfl] at h
        rcases ih st h with h' | h'
        · left
          rw [isPrefixB, if_pos rfl, h']
        · right
          rw [isPrefixB, if_pos rfl, h']
      · rw [if_neg hsa] at h
        cases h

lemma mem_of_isPrefixB [DecidableEq α] {p sep : List α}
    (h : isPrefixB p sep = true) : ∀ a ∈ p, a ∈ sep := by
  obtain ⟨r, hr⟩ := (isPrefixB_iff_append _ _).1 h
  intro a ha
  rw [hr]
  exact List.mem_append_left _ ha

lemma not_containsSub_append_head [DecidableEq α] (sep A B : List α)
    (hA : containsSub sep A = false) (hB : containsSub sep B = false)
    (hhead : ∀ b, B.head? = some b → b ∉ sep) :
    containsSub sep (A ++ B) = false := by
  induction A with
  | nil => simpa using hB
  | cons a A' ih =>
    rw [containsSub] at hA
    obtain ⟨hpre, hA'⟩ := Bool.or_eq_false_iff.1 hA
    rw [List.cons_append, containsSub]
    refine Bool.or_eq_false_iff.2 ⟨?_, ih hA'⟩
    by_contra hcontra
    rw [Bool.not_eq_false] at hcontra
    rw [← List.cons_append] at hcontra
    rcases isPrefixB_append_split sep (a :: A') B hcontra with h' | h'
    · rw [h'] at hpre
      cases hpre
    · obtain ⟨s2, hs2⟩ := (isPrefixB_iff_append _ _).1 h'
      cases s2 with
      | nil =>
        have hself : isPrefixB sep (a :: A') = true := by
          rw [hs2]
          simpa using isPrefixB_self (a :: A')
        rw [hself] at hpre
        cases hpre
      | cons s0 s2' =>
        have hps : isPrefixB (s0 :: s2') B = true := by
          have h2 : isPrefixB ((a :: A') ++ (s0 :: s2'))
              ((a :: A') ++ B) = true := by
            have h3 := hcontra
            rw [hs2] at h3
            exact h3
          rwa [isPrefixB_append_cancel] at h2
        obtain ⟨r, hr⟩ := (isPrefixB_iff_append _ _).1 hps
        have hbh : B.head? = some s0 := by
          rw [hr]
          rfl
        have hs0 : s0 ∈ sep := by
          rw [hs2]
          exact List.mem_append_right _ (List.mem_cons_self _ _)
        exact hhead s0 hbh hs0

lemma not_containsSub_append_last [DecidableEq α] (sep A B : List α)
    (hA : containsSub sep A = false) (hB : containsSub sep B = false)
    (hlast : ∀ a, A.getLast? = some a → a ∉ sep) :
    containsSub sep (A ++ B) = false := by
  induction A with
  | nil => simpa using hB
  | cons a A' ih =>
    rw [containsSub] at hA
    obtain ⟨hpre, hA'⟩ := Bool.or_eq_false_iff.1 hA
    rw [List.cons_append, containsSub]
    have hlast' : ∀ x, A'.getLast? = some x → x ∉ sep := by
      intro x hx
      refine hlast x ?_
      cases A' with
      | nil => cases hx
      | cons b B' => rw [List.getLast?_cons_cons]; exact hx
    refine Bool.or_eq_false_iff.2 ⟨?_, ih hA' hlast'⟩
    by_contra hcontra
    rw [Bool.not_eq_false] at hcontra
    rw [← List.cons_append] at hcontra
    rcases isPrefixB_append_split sep (a :: A') B hcontra with h' | h'
    · rw [h'] at hpre
      cases hpre
    · have hne : (a :: A') ≠ ([] : List α) := List.cons_ne_nil _ _
      have hmem : (a :: A').getLast hne ∈ sep :=
        mem_of_isPrefixB h' _ (List.getLast_mem hne)
      exact hlast _ (List.getLast?_eq_getLast _ hne) hmem

lemma not_containsSub_of_head_not_mem [DecidableEq α] (sep l : List α)
    (hne : sep ≠ []) (h : ∀ s0, sep.head? = some s0 → s0 ∉ l) :
    containsSub sep l = false := by
  induction l with
  | nil =>
    rw [containsSub]
    simpa using hne
  | cons a l' ih =>
    cases sep with
    | nil => exact absurd rfl hne
    | cons s0 st =>
      rw [containsSub]
      refine Bool.or_eq_false_iff.2 ⟨?_, ?_⟩
      · rw [isPrefixB]
        rw [if_neg ?_]
        intro he
        subst he
        exact h s0 rfl (List.mem_cons_self _ _)
      · refine ih ?_
        intro x hx hxl
        cases hx
        exact h s0 rfl (List.mem_cons_of_mem _ hxl)

lemma splitChar_of_not_mem (c : Char) (l : List Char)
    (h : ∀ a ∈ l, a ≠ c) : splitChar c l = [l] := by
  induction l with
  | nil => rfl
  | cons a l' ih =>
    rw [splitChar, if_neg (h a (List.mem_cons_self _ _)),
      ih (fun x hx => h x (List.mem_cons_of_mem _ hx))]

lemma splitChar_append (c : Char) (A B : List Char)
    (h : ∀ a ∈ A, a ≠ c) : splitChar c (A ++ c :: B) = A :: splitChar c B := by
  induction A with
  | nil =>
    rw [List.nil_append, splitChar, if_pos rfl]
  | cons a A' ih =>
    rw [List.cons_append, splitChar, if_neg (h a (List.mem_cons_self _ _)),
      ih (fun x hx => h x (List.mem_cons_of_mem _ hx))]

lemma dropWhile_append_all (p : α → Bool) (W l : List α)
    (h : ∀ a ∈ W, p a = true) : (W ++ l).dropWhile p = l.dropWhile p := by
  induction W with
  | nil => rfl
  | cons w W' ih =>
    rw [List.cons_append, List.dropWhile_cons, if_pos (h w (List.mem_cons_self _ _))]
    exact ih (fun x hx => h x (List.mem_cons_of_mem _ hx))

lemma dropWhile_cons_false (p : α → Bool) (a : α) (l : List α)
    (h : p a = false) : (a :: l).dropWhile p = a :: l := by
  rw [List.dropWhile_cons, if_neg (by simp [h])]

lemma dropWhile_all_nil (p : α → Bool) (W : List α)
    (h : ∀ a ∈ W, p a = true) : W.dropWhile p = [] := by
  have := dropWhile_append_all p W [] h
  simpa using this

lemma dropWhile_append_singleton (p : α → Bool) (a : α) (Z : List α)
    (h : p a = false) :
    ∃ Z', (Z ++ [a]).dropWhile p = Z' ++ [a] := by
  induction Z with
  | nil =>
    refine ⟨[], ?_⟩
    simpa using dropWhile_cons_false p a [] h
  | cons z Z' ih =>
    by_cases hz : p z = true
    · rw [List.cons_append, List.dropWhile_cons, if_pos hz]
      exact ih
    · refine ⟨z :: Z', ?_⟩
      rw [List.cons_append, List.dropWhile_cons,
        if_neg (by simp [Bool.not_eq_true] at hz ⊢; exact hz)]

lemma stripEnds_sandwich (bad : α → Bool) (W1 core W2 : List α)
    (h1 : ∀ a ∈ W1, bad a = true) (h2 : ∀ a ∈ W2, bad a = true)
    (hcore : core = [] ∨
      ((∃ x, core.head? = some x ∧ bad x = false) ∧
       (∃ y, core.getLast? = some y ∧ bad y = false))) :
    stripEnds bad (W1 ++ core ++ W2) = core := by
  rcases hcore with hc | ⟨⟨x, hx, hbx⟩, ⟨y, hy, hby⟩⟩
  · subst hc
    rw [stripEnds, List.append_nil, dropWhile_append_all bad W1 W2 h1,
      dropWhile_all_nil bad W2 h2]
    rfl
  · cases core with
    | nil => cases hx
    | cons c core' =>
      cases hx
      rw [stripEnds, List.append_assoc, dropWhile_append_all bad W1 _ h1,
        List.cons_append, dropWhile_cons_false bad _ _ hbx,
        ← List.cons_append, List.reverse_append]
      rw [dropWhile_append_all bad W2.reverse _
        (fun a ha => h2 a (List.mem_reverse.1 ha))]
      have hrevhead : (x :: core').reverse.head? = some y := by
        rw [List.head?_reverse]
        exact hy
      cases hrev : (x :: core').reverse with
      | nil =>
        exact absurd hrev (by simp)
      | cons r rs =>
        rw [hrev] at hrevhead
        cases hrevhead
        rw [dropWhile_cons_false bad _ _ hby, ← hrev, List.reverse_reverse]

lemma stripEnds_head (bad : α → Bool) (W : List α) (a : α) (X : List α)
    (hW : ∀ w ∈ W, bad w = true) (ha : bad a = false) :
    ∃ Y, stripEnds bad (W ++ a :: X) = a :: Y := by
  rw [stripEnds, dropWhile_append_all bad W _ hW,
    dropWhile_cons_false bad _ _ ha, List.reverse_cons]
  obtain ⟨Z', hZ'⟩ := dropWhile_append_singleton bad a X.reverse ha
  rw [hZ', List.reverse_append]
  exact ⟨Z'.reverse, rfl⟩

lemma rstripSet_append_in (bad : List Byte) (l T : List Byte)
    (h : ∀ b ∈ T, bad.contains b = true) :
    rstripSet bad (l ++ T) = rstripSet bad l := by
  rw [rstripSet, rstripSet, List.reverse_append,
    dropWhile_append_all _ T.reverse _
      (fun b hb => h b (List.mem_reverse.1 hb))]

lemma rstripSet_eq_self (bad : List Byte) (l : List Byte)
    (h : l = [] ∨ ∃ y, l.getLast? = some y ∧ bad.contains y = false) :
    rstripSet bad l = l := by
  rcases h with hc | ⟨y, hy, hby⟩
  · subst hc
    rfl
  · rw [rstripSet]
    cases hrev : l.reverse with
    | nil =>
      simp at hrev
      subst hrev
      rfl
    | cons r rs =>
      have : l.reverse.head? = some y := by
        rw [List.head?_reverse]
        exact hy
      rw [hrev] at this
      cases this
      rw [dropWhile_cons_false _ _ _ hby, ← hrev, List.reverse_reverse]

lemma split_go_skip (sep : List Byte) (q rest : List Byte) :
    split_go sep (q ++ rest) q.length = split_go sep rest 0 := by
  induction q with
  | nil => rfl
  | cons a q' ih =>
    simp only [List.cons_append, List.length_cons, split_go]
    exact ih

lemma split_go_of_not_contains (sep l : List Byte)
    (h : containsSub sep l = false) : split_go sep l 0 = [l] := by
  induction l with
  | nil => rfl
  | cons a l' ih =>
    rw [containsSub] at h
    obtain ⟨h1, h2⟩ := Bool.or_eq_false_iff.1 h
    rw [split_go, if_neg (by simp [h1]), ih h2]

lemma split_go_append (sep p rest : List Byte) (hne : sep ≠ [])
    (hnc : containsSub sep p = false)
    (hlast : ∀ c, p.getLast? = some c → c ∉ sep) :
    split_go sep (p ++ sep ++ rest) 0 = p :: split_go sep rest 0 := by
  induction p with
  | nil =>
    cases sep with
    | nil => exact absurd rfl hne
    | cons s0 st =>
      rw [List.nil_append]
      have hpre : isPrefixB (s0 :: st) ((s0 :: st) ++ rest) = true :=
        isPrefixB_append_self _ _
      rw [List.cons_append, split_go, if_pos (by exact hpre)]
      simp only [List.length_cons, Nat.add_sub_cancel]
      rw [split_go_skip]
  | cons a p' ih =>
    rw [containsSub] at hnc
    obtain ⟨hpre0, hnc'⟩ := Bool.or_eq_false_iff.1 hnc
    have hlast' : ∀ c, p'.getLast? = some c → c ∉ sep := by
      intro c hc
      refine hlast c ?_
      cases p' with
      | nil => cases hc
      | cons b B' => rw [List.getLast?_cons_cons]; exact hc
    have hprefalse : isPrefixB sep ((a :: p') ++ (sep ++ rest)) = false := by
      by_contra hcontra
      rw [Bool.not_eq_false] at hcontra
      rcases isPrefixB_append_split sep (a :: p') (sep ++ rest) hcontra
        with h' | h'
      · rw [h'] at hpre0
        cases hpre0
      · have hne2 : (a :: p') ≠ ([] : List Byte) := List.cons_ne_nil _ _
        have hmem : (a :: p').getLast hne2 ∈ sep :=
          mem_of_isPrefixB h' _ (List.getLast_mem hne2)
        exact hlast _ (List.getLast?_eq_getLast _ hne2) hmem
    have hstep : ((a :: p') ++ sep ++ rest) = a :: (p' ++ sep ++ rest) := by
      simp
    rw [hstep, split_go,
      if_neg (by
        intro hh
        rw [List.append_assoc] at hh
        rw [List.cons_append] at hprefalse
        rw [hh] at hprefalse
        cases hprefalse),
      ih hnc' hlast']

lemma toNat_ne_of_ne {c d : Char} (h : c ≠ d) : c.toNat ≠ d.toNat := by
  intro he
  apply h
  have h2 := congrArg Char.ofNat he
  rwa [Char.ofNat_toNat, Char.ofNat_toNat] at h2

lemma option_all_some {p : α → Bool} {o : Option α} (h : o.all p = true) :
    ∀ a, o = some a → p a = true := by
  intro a ha
  rw [ha] at h
  simpa using h

lemma containsSub_append_sep [DecidableEq α] (sep A B : List α) :
    containsSub sep (A ++ sep ++ B) = true := by
  induction A with
  | nil =>
    have h : ([] : List α) ++ sep ++ B = sep ++ B := by simp
    rw [h]
    exact containsSub_of_isPrefixB (isPrefixB_append_self sep B)
  | cons a A' ih =>
    have h : (a :: A') ++ sep ++ B = a :: (A' ++ sep ++ B) := by simp
    rw [h, containsSub, ih, Bool.or_true]

lemma split_once_append (sep A B : List Byte)
    (hnc : containsSub sep A = false)
    (hlast : ∀ c, A.getLast? = some c → c ∉ sep) :
    split_once_go sep (A ++ sep ++ B) = some (A, B) := by
  induction A with
  | nil =>
    cases hsep : sep with
    | nil =>
      rw [hsep] at hnc
      simp [containsSub] at hnc
    | cons s st =>
      rw [List.nil_append, List.cons_append, split_once_go,
        if_pos (show isPrefixB (s :: st) (s :: (st ++ B)) = true from by
          have h := isPrefixB_append_self (s :: st) B
          simpa using h)]
      simp [List.drop_left]
  | cons a A' ih =>
    rw [containsSub] at hnc
    obtain ⟨hpre0, hnc'⟩ := Bool.or_eq_false_iff.1 hnc
    have hlast' : ∀ c, A'.getLast? = some c → c ∉ sep := by
      intro c hc
      refine hlast c ?_
      cases A' with
      | nil => cases hc
      | cons b B' => rw [List.getLast?_cons_cons]; exact hc
    have hprefalse : isPrefixB sep ((a :: A') ++ (sep ++ B)) = false := by
      by_contra hcontra
      rw [Bool.not_eq_false] at hcontra
      rcases isPrefixB_append_split sep (a :: A') (sep ++ B) hcontra
        with h' | h'
      · rw [h'] at hpre0
        cases hpre0
      · have hne2 : (a :: A') ≠ ([] : List Byte) := List.cons_ne_nil _ _
        have hmem : (a :: A').getLast hne2 ∈ sep :=
          mem_of_isPrefixB h' _ (List.getLast_mem hne2)
        exact hlast _ (List.getLast?_eq_getLast _ hne2) hmem
    have hstep : ((a :: A') ++ sep ++ B) = a :: (A' ++ sep ++ B) := by
      simp
    rw [hstep, split_once_go,
      if_neg (by
        intro hh
        rw [List.append_assoc] at hh
        rw [List.cons_append] at hprefalse
        rw [hh] at hprefalse
        cases hprefalse),
      ih hnc' hlast']

lemma charsToBytes_append (A B : List Char) :
    charsToBytes (A ++ B) = charsToBytes A ++ charsToBytes B := by
  simp [charsToBytes]

lemma asciiDecode_append (A B : List Byte) :
    asciiDecode (A ++ B) = asciiDecode A ++ asciiDecode B := by
  simp [asciiDecode]

lemma asciiDecode_charsToBytes (l : List Char) (h : ∀ c ∈ l, c.toNat < 128) :
    asciiDecode (charsToBytes l) = l := by
  induction l with
  | nil => rfl
  | cons c cs ih =>
    have hc : c.toNat < 128 := h c (List.mem_cons_self _ _)
    have hstep : asciiDecode (charsToBytes (c :: cs))
        = Char.ofNat c.toNat :: asciiDecode (charsToBytes cs) := by
      simp [charsToBytes, asciiDecode, List.filter_cons, hc]
    rw [hstep, Char.ofNat_toNat,
      ih (fun x hx => h x (List.mem_cons_of_mem _ hx))]

lemma getLast?_append_right (A B : List α) (h : B ≠ []) :
    (A ++ B).getLast? = B.getLast? := by
  rw [← List.head?_reverse, List.reverse_append, ← List.head?_reverse]
  cases hB : B.reverse with
  | nil => exact absurd (List.reverse_eq_nil_iff.1 hB) h
  | cons b bs => rfl

lemma getLast?_charsToBytes (l : List Char) :
    (charsToBytes l).getLast? = l.getLast?.map Char.toNat := by
  rw [charsToBytes, ← List.head?_reverse, ← List.map_reverse,
    List.head?_map, List.head?_reverse]

lemma dict_insert_fresh (k : List Char) (v : MPField)
    (l : List (List Char × MPField)) (h : ∀ p ∈ l, p.1 ≠ k) :
    dict_insert k v l = l ++ [(k, v)] := by
  induction l with
  | nil => rfl
  | cons p rest ih =>
    cases p with
    | mk k' v' =>
      rw [dict_insert, if_neg (h (k', v') (List.mem_cons_self _ _)),
        ih (fun q hq => h q (List.mem_cons_of_mem _ hq)), List.cons_append]

lemma contains_pair_false (x y b : Byte) (h1 : b ≠ x) (h2 : b ≠ y) :
    ([x, y] : List Byte).contains b = false := by
  simp [h1, h2]

lemma contains_single_false (x b : Byte) (h1 : b ≠ x) :
    ([x] : List Byte).contains b = false := by
  simp [h1]

lemma stripStable_head {l : List Char} (h : stripStable l = true) :
    ∀ a, l.head? = some a → isPyWsChar a = false := by
  intro a ha
  rw [stripStable, Bool.and_eq_true] at h
  have h1 := h.1
  rw [ha] at h1
  simpa using h1

lemma stripStable_getLast {l : List Char} (h : stripStable l = true) :
    ∀ a, l.getLast? = some a → isPyWsChar a = false := by
  intro a ha
  rw [stripStable, Bool.and_eq_true] at h
  have h2 := h.2
  rw [ha] at h2
  simpa using h2

lemma pyStripC_of_stripStable (l : List Char) (h : stripStable l = true) :
    pyStripC l = l := by
  cases l with
  | nil => rfl
  | cons a l' =>
    have hhead : isPyWsChar a = false := stripStable_head h a rfl
    have hne : (a :: l') ≠ ([] : List Char) := List.cons_ne_nil _ _
    have hlasteq : (a :: l').getLast? = some ((a :: l').getLast hne) :=
      List.getLast?_eq_getLast _ hne
    have hby : isPyWsChar ((a :: l').getLast hne) = false :=
      stripStable_getLast h _ hlasteq
    have hs := stripEnds_sandwich isPyWsChar [] (a :: l') []
      (by simp) (by simp)
      (Or.inr ⟨⟨a, rfl, hhead⟩, ⟨(a :: l').getLast hne, hlasteq, hby⟩⟩)
    simpa [pyStripC] using hs

lemma markerOf_ne_nil (boundary : List Char) : markerOf boundary ≠ [] := by
  have h2 : strBytes "--" = [45, 45] := by decide
  rw [markerOf, h2]
  simp

lemma head?_markerOf (boundary : List Char) :
    (markerOf boundary).head? = some 45 := by
  have h2 : strBytes "--" = [45, 45] := by decide
  rw [markerOf, h2]
  rfl

lemma mem_markerOf (boundary : List Char) (b : Byte)
    (h : b ∈ markerOf boundary) : b = 45 ∨ ∃ c ∈ boundary, c.toNat = b := by
  have h2 : strBytes "--" = [45, 45] := by decide
  rw [markerOf, h2] at h
  rcases List.mem_append.1 h with h' | h'
  · left
    simpa using h'
  · right
    rw [charsToBytes] at h'
    obtain ⟨c, hc, hcb⟩ := List.mem_map.1 h'
    exact ⟨c, hc, hcb⟩

lemma cr_not_mem_markerOf (boundary : List Char) (hs : headerSafe boundary) :
    (13 : Byte) ∉ markerOf boundary := by
  intro h
  rcases mem_markerOf _ _ h with h45 | ⟨c, hc, hcb⟩
  · exact absurd h45 (by decide)
  · exact (hs c hc).2.2.2.1 hcb

lemma lf_not_mem_markerOf (boundary : List Char) (hs : headerSafe boundary) :
    (10 : Byte) ∉ markerOf boundary := by
  intro h
  rcases mem_markerOf _ _ h with h45 | ⟨c, hc, hcb⟩
  · exact absurd h45 (by decide)
  · exact (hs c hc).2.2.2.2 hcb

lemma not_containsSub_closing (boundary : List Char) (hne : boundary ≠ [])
    (hs : headerSafe boundary) :
    containsSub (markerOf boundary) (strBytes "--\r\n") = false := by
  cases boundary with
  | nil => exact absurd rfl hne
  | cons c0 rest =>
    have h13 : c0.toNat ≠ 13 := (hs c0 (List.mem_cons_self _ _)).2.2.2.1
    have h2 : strBytes "--\r\n" = [45, 45, 13, 10] := by decide
    have h3 : strBytes "--" = [45, 45] := by decide
    have hm : markerOf (c0 :: rest)
        = 45 :: 45 :: c0.toNat :: charsToBytes rest := by
      rw [markerOf, h3]
      rfl
    rw [h2, hm]
    simp [containsSub, isPrefixB, h13]

lemma cdLineStr_forall (name : List Char) (hs : headerSafe name) :
    ∀ c ∈ cdLineStr name, c.toNat < 128 ∧ c.toNat ≠ 13 ∧ c.toNat ≠ 10 := by
  intro c hc
  rw [cdLineStr] at hc
  rcases List.mem_append.1 hc with h' | h'
  · rcases List.mem_append.1 h' with h2 | h2
    · exact (show ∀ c ∈ "Content-Disposition: form-data; name=\"".data,
          c.toNat < 128 ∧ c.toNat ≠ 13 ∧ c.toNat ≠ 10 from by decide) c h2
    · obtain ⟨ha, _, _, hc13, hc10⟩ := hs c h2
      exact ⟨ha, hc13, hc10⟩
  · exact (show ∀ c ∈ "\"".data,
        c.toNat < 128 ∧ c.toNat ≠ 13 ∧ c.toNat ≠ 10 from by decide) c h'

lemma cdLineFile_forall (name filename : List Char) (hn : headerSafe name)
    (hf : headerSafe filename) :
    ∀ c ∈ cdLineFile name filename,
      c.toNat < 128 ∧ c.toNat ≠ 13 ∧ c.toNat ≠ 10 := by
  intro c hc
  rw [cdLineFile] at hc
  rcases List.mem_append.1 hc with h' | h'
  · rcases List.mem_append.1 h' with h2 | h2
    · rcases List.mem_append.1 h2 with h3 | h3
      · rcases List.mem_append.1 h3 with h4 | h4
        · exact (show ∀ c ∈ "Content-Disposition: form-data; name=\"".data,
              c.toNat < 128 ∧ c.toNat ≠ 13 ∧ c.toNat ≠ 10 from by decide) c h4
        · obtain ⟨ha, _, _, hc13, hc10⟩ := hn c h4
          exact ⟨ha, hc13, hc10⟩
      · exact (show ∀ c ∈ "\"; filename=\"".data,
            c.toNat < 128 ∧ c.toNat ≠ 13 ∧ c.toNat ≠ 10 from by decide) c h3
    · obtain ⟨ha, _, _, hc13, hc10⟩ := hf c h2
      exact ⟨ha, hc13, hc10⟩
  · exact (show ∀ c ∈ "\"".data,
        c.toNat < 128 ∧ c.toNat ≠ 13 ∧ c.toNat ≠ 10 from by decide) c h'

lemma ctLine_forall (ct : List Char)
    (hc : ∀ c ∈ ct, c.toNat < 128 ∧ c.toNat ≠ 13 ∧ c.toNat ≠ 10) :
    ∀ c ∈ ctLine ct, c.toNat < 128 ∧ c.toNat ≠ 13 ∧ c.toNat ≠ 10 := by
  intro c h
  rw [ctLine] at h
  rcases List.mem_append.1 h with h' | h'
  · exact (show ∀ c ∈ "Content-Type: ".data,
        c.toNat < 128 ∧ c.toNat ≠ 13 ∧ c.toNat ≠ 10 from by decide) c h'
  · exact hc c h'

lemma bytes_forall_of_chars (l : List Char)
    (h : ∀ c ∈ l, c.toNat < 128 ∧ c.toNat ≠ 13 ∧ c.toNat ≠ 10) :
    ∀ b ∈ charsToBytes l, b ≠ 13 ∧ b ≠ 10 := by
  intro b hb
  rw [charsToBytes] at hb
  obtain ⟨c, hc, hcb⟩ := List.mem_map.1 hb
  rw [← hcb]
  exact ⟨(h c hc).2.1, (h c hc).2.2⟩

lemma seg_not_contains (marker : List Byte) (hhead : marker.head? = some 45)
    (l : List Byte) (h45 : (45 : Byte) ∉ l) :
    containsSub marker l = false := by
  refine not_containsSub_of_head_not_mem marker l ?_ ?_
  · intro hnil
    rw [hnil] at hhead
    cases hhead
  · intro s0 hs0
    rw [hhead] at hs0
    cases hs0
    exact h45

lemma part_body_str_marker_free (marker : List Byte)
    (hhead : marker.head? = some 45)
    (h13 : (13 : Byte) ∉ marker) (h10 : (10 : Byte) ∉ marker)
    (name value : List Char)
    (hL1 : containsSub marker (charsToBytes (cdLineStr name)) = false)
    (hV : containsSub marker (charsToBytes value) = false) :
    containsSub marker (partBodyStr name value) = false := by
  have hcrlf : strBytes "\r\n" = [13, 10] := by decide
  have hsep4 : strBytes "\r\n\r\n" = [13, 10, 13, 10] := by decide
  have hT5 : containsSub marker ([13, 10] : List Byte) = false :=
    seg_not_contains marker hhead _ (by decide)
  have hT4 : containsSub marker (charsToBytes value ++ [13, 10]) = false := by
    refine not_containsSub_append_head marker _ _ hV hT5 ?_
    intro b hb
    cases hb
    exact h13
  have hsep4f : containsSub marker ([13, 10, 13, 10] : List Byte) = false :=
    seg_not_contains marker hhead _ (by decide)
  have hT3 : containsSub marker
      ([13, 10, 13, 10] ++ (charsToBytes value ++ [13, 10])) = false := by
    refine not_containsSub_append_last marker _ _ hsep4f hT4 ?_
    intro a ha
    have hgl : ([13, 10, 13, 10] : List Byte).getLast? = some 10 := by decide
    rw [hgl] at ha
    cases ha
    exact h10
  have hT2 : containsSub marker
      (charsToBytes (cdLineStr name)
        ++ ([13, 10, 13, 10] ++ (charsToBytes value ++ [13, 10]))) = false := by
    refine not_containsSub_append_head marker _ _ hL1 hT3 ?_
    intro b hb
    cases hb
    exact h13
  have hT1 : containsSub marker
      ([13, 10] ++ (charsToBytes (cdLineStr name)
        ++ ([13, 10, 13, 10] ++ (charsToBytes value ++ [13, 10])))) = false := by
    refine not_containsSub_append_last marker _ _ hT5 hT2 ?_
    intro a ha
    have hgl : ([13, 10] : List Byte).getLast? = some 10 := by decide
    rw [hgl] at ha
    cases ha
    exact h10
  have hshape : partBodyStr name value
      = [13, 10] ++ (charsToBytes (cdLineStr name)
        ++ ([13, 10, 13, 10] ++ (charsToBytes value ++ [13, 10]))) := by
    rw [partBodyStr, hcrlf, hsep4]
    simp [List.append_assoc]
  rw [hshape]
  exact hT1

lemma part_body_file_marker_free (marker : List Byte)
    (hhead : marker.head? = some 45)
    (h13 : (13 : Byte) ∉ marker) (h10 : (10 : Byte) ∉ marker)
    (name filename ct : List Char) (content : List Byte)
    (hL1 : containsSub marker (charsToBytes (cdLineFile name filename)) = false)
    (hL2 : containsSub marker (charsToBytes (ctLine ct)) = false)
    (hC : containsSub marker content = false) :
    containsSub marker (partBodyFile name filename ct content) = false := by
  have hcrlf : strBytes "\r\n" = [13, 10] := by decide
  have hsep4 : strBytes "\r\n\r\n" = [13, 10, 13, 10] := by decide
  have hT6 : containsSub marker ([13, 10] : List Byte) = false :=
    seg_not_contains marker hhead _ (by decide)
  have hT5 : containsSub marker (content ++ [13, 10]) = false := by
    refine not_containsSub_append_head marker _ _ hC hT6 ?_
    intro b hb
    cases hb
    exact h13
  have hsep4f : containsSub marker ([13, 10, 13, 10] : List Byte) = false :=
    seg_not_contains marker hhead _ (by decide)
  have hT4 : containsSub marker
      ([13, 10, 13, 10] ++ (content ++ [13, 10])) = false := by
    refine not_containsSub_append_last marker _ _ hsep4f hT5 ?_
    intro a ha
    have hgl : ([13, 10, 13, 10] : List Byte).getLast? = some 10 := by decide
    rw [hgl] at ha
    cases ha
    exact h10
  have hT3 : containsSub marker
      (charsToBytes (ctLine ct)
        ++ ([13, 10, 13, 10] ++ (content ++ [13, 10]))) = false := by
    refine not_containsSub_append_head marker _ _ hL2 hT4 ?_
    intro b hb
    cases hb
    exact h13
  have hT2b : containsSub marker
      ([13, 10] ++ (charsToBytes (ctLine ct)
        ++ ([13, 10, 13, 10] ++ (content ++ [13, 10])))) = false := by
    refine not_containsSub_append_last marker _ _ hT6 hT3 ?_
    intro a ha
    have hgl : ([13, 10] : List Byte).getLast? = some 10 := by decide
    rw [hgl] at ha
    cases ha
    exact h10
  have hT2 : containsSub marker
      (charsToBytes (cdLineFile name filename)
        ++ ([13, 10] ++ (charsToBytes (ctLine ct)
          ++ ([13, 10, 13, 10] ++ (content ++ [13, 10]))))) = false := by
    refine not_containsSub_append_head marker _ _ hL1 hT2b ?_
    intro b hb
    cases hb
    exact h13
  have hT1 : containsSub marker
      ([13, 10] ++ (charsToBytes (cdLineFile name filename)
        ++ ([13, 10] ++ (charsToBytes (ctLine ct)
          ++ ([13, 10, 13, 10] ++ (content ++ [13, 10])))))) = false := by
    refine not_containsSub_append_last marker _ _ hT6 hT2 ?_
    intro a ha
    have hgl : ([13, 10] : List Byte).getLast? = some 10 := by decide
    rw [hgl] at ha
    cases ha
    exact h10
  have hshape : partBodyFile name filename ct content
      = [13, 10] ++ (charsToBytes (cdLineFile name filename)
        ++ ([13, 10] ++ (charsToBytes (ctLine ct)
          ++ ([13, 10, 13, 10] ++ (content ++ [13, 10]))))) := by
    rw [partBodyFile, hcrlf, hsep4]
    simp [List.append_assoc]
  rw [hshape]
  exact hT1

lemma part_body_str_getLast (name value : List Char) :
    ∀ c, (partBodyStr name value).getLast? = some c → c = 10 := by
  intro c hc
  rw [partBodyStr, getLast?_append_right _ _ (by decide)] at hc
  have h : (strBytes "\r\n").getLast? = some 10 := by decide
  rw [h] at hc
  cases hc
  rfl

lemma part_body_file_getLast (name filename ct : List Char)
    (content : List Byte) :
    ∀ c, (partBodyFile name filename ct content).getLast? = some c →
      c = 10 := by
  intro c hc
  rw [partBodyFile, getLast?_append_right _ _ (by decide)] at hc
  have h : (strBytes "\r\n").getLast? = some 10 := by decide
  rw [h] at hc
  cases hc
  rfl

lemma flatten_chunks (marker : List Byte) (bodies : List (List Byte))
    (tail : List Byte) :
    (bodies.map (fun b => marker ++ b)).flatten ++ (marker ++ tail)
      = marker ++ bodies.foldr (fun b acc => b ++ marker ++ acc) tail := by
  induction bodies with
  | nil => simp
  | cons b bs ih =>
    simp only [List.map_cons, List.flatten_cons, List.foldr_cons,
      List.append_assoc]
    rw [ih]
    simp [List.append_assoc]

lemma split_go_foldr (marker : List Byte) (hne : marker ≠ [])
    (bodies : List (List Byte)) (tail : List Byte)
    (hB : ∀ b ∈ bodies, containsSub marker b = false ∧
      ∀ c, b.getLast? = some c → c ∉ marker)
    (htail : containsSub marker tail = false) :
    split_go marker (bodies.foldr (fun b acc => b ++ marker ++ acc) tail) 0
      = bodies ++ [tail] := by
  induction bodies with
  | nil => simpa using split_go_of_not_contains marker tail htail
  | cons b bs ih =>
    rw [List.foldr_cons,
      split_go_append marker b _ hne (hB b (List.mem_cons_self _ _)).1
        (hB b (List.mem_cons_self _ _)).2,
      ih (fun x hx => hB x (List.mem_cons_of_mem _ hx))]
    rfl

lemma pySplit_standard_body (marker : List Byte) (hne : marker ≠ [])
    (bodies : List (List Byte)) (tail : List Byte)
    (hB : ∀ b ∈ bodies, containsSub marker b = false ∧
      ∀ c, b.getLast? = some c → c ∉ marker)
    (htail : containsSub marker tail = false) :
    pySplit marker
        ((bodies.map (fun b => marker ++ b)).flatten ++ (marker ++ tail))
      = [] :: (bodies ++ [tail]) := by
  rw [flatten_chunks, pySplit]
  have hmid := split_go_foldr marker hne bodies tail hB htail
  have hnil : containsSub marker ([] : List Byte) = false := by
    rw [containsSub]
    cases marker with
    | nil => exact absurd rfl hne
    | cons m ms => rfl
  have h := split_go_append marker []
    (bodies.foldr (fun b acc => b ++ marker ++ acc) tail) hne hnil
    (by intro c hc; cases hc)
  rw [List.nil_append] at h
  rw [h, hmid]

lemma dropLast_append_singleton (l : List α) (a : α) :
    (l ++ [a]).dropLast = l := by
  simp

lemma process_part_str (fields : List (List Char × MPField))
    (name value : List Char) (hn : name ≠ []) (hns : headerSafe name)
    (hva : ∀ c ∈ value, c.toNat < 128) (hvs : stripStable value = true) :
    process_part fields (partBodyStr name value)
      = dict_insert name (MPField.str value) fields := by
  have hcrlf : strBytes "\r\n" = [13, 10] := by decide
  have hsep4 : strBytes "\r\n\r\n" = [13, 10, 13, 10] := by decide
  have hq : charsToBytes "\"".data = [34] := by decide
  have hr : charsToBytes "Content-Disposition: form-data; name=\"".data
      = 67 :: charsToBytes "ontent-Disposition: form-data; name=\"".data := by
    decide
  have hshape1 : partBodyStr name value
      = [13, 10] ++ 67 ::
          (charsToBytes "ontent-Disposition: form-data; name=\"".data
            ++ (charsToBytes name ++ ([34] ++ ([13, 10, 13, 10]
            ++ (charsToBytes value ++ [13, 10]))))) := by
    rw [partBodyStr, cdLineStr, charsToBytes_append, charsToBytes_append,
      hr, hq, hcrlf, hsep4]
    simp [List.append_assoc]
  obtain ⟨Y1, hY1⟩ := stripEnds_head isPyWsByte [13, 10] 67
    (charsToBytes "ontent-Disposition: form-data; name=\"".data
      ++ (charsToBytes name ++ ([34] ++ ([13, 10, 13, 10]
      ++ (charsToBytes value ++ [13, 10])))))
    (by decide) (by decide)
  have hstrip : pyStripB (partBodyStr name value) = 67 :: Y1 := by
    rw [pyStripB, hshape1]
    exact hY1
  have hcondfalse : (decide (pyStripB (partBodyStr name value) = strBytes "--")
      || decide (pyStripB (partBodyStr name value) = [])) = false := by
    rw [hstrip, (show strBytes "--" = [45, 45] from by decide)]
    simp
  obtain ⟨r1, hr1⟩ : ∃ r, charsToBytes (cdLineStr name) = 67 :: r := by
    refine ⟨charsToBytes "ontent-Disposition: form-data; name=\"".data
      ++ (charsToBytes name ++ [34]), ?_⟩
    rw [cdLineStr, charsToBytes_append, charsToBytes_append, hr, hq]
    simp [List.append_assoc]
  have hL1f : containsSub ([13, 10, 13, 10] : List Byte)
      (charsToBytes (cdLineStr name)) = false := by
    refine not_containsSub_of_head_not_mem _ _ (by decide) ?_
    intro s0 hs0 hmem
    cases hs0
    have h2 := bytes_forall_of_chars _ (cdLineStr_forall name hns) 13 hmem
    exact h2.1 rfl
  have hA1nc : containsSub ([13, 10, 13, 10] : List Byte)
      ([13, 10] ++ charsToBytes (cdLineStr name)) = false := by
    refine not_containsSub_append_head _ _ _ (by decide) hL1f ?_
    intro b hb
    rw [hr1] at hb
    cases hb
    decide
  have hA1last : ∀ c,
      ([13, 10] ++ charsToBytes (cdLineStr name)).getLast? = some c →
        c ∉ ([13, 10, 13, 10] : List Byte) := by
    intro c hc
    have hsh : [13, 10] ++ charsToBytes (cdLineStr name)
        = ([13, 10] ++ charsToBytes
            ("Content-Disposition: form-data; name=\"".data ++ name)) ++ [34] := by
      rw [cdLineStr, charsToBytes_append, charsToBytes_append, hq]
      simp [List.append_assoc]
    rw [hsh, getLast?_append_right _ _ (by decide)] at hc
    cases hc
    decide
  have hsplit : split_once_go ([13, 10, 13, 10] : List Byte)
      (partBodyStr name value)
      = some ([13, 10] ++ charsToBytes (cdLineStr name),
          charsToBytes value ++ [13, 10]) := by
    have hshape2 : partBodyStr name value
        = ([13, 10] ++ charsToBytes (cdLineStr name)) ++ [13, 10, 13, 10]
            ++ (charsToBytes value ++ [13, 10]) := by
      rw [partBodyStr, hcrlf, hsep4]
      simp [List.append_assoc]
    rw [hshape2]
    exact split_once_append _ _ _ hA1nc hA1last
  have hcontains : containsSub ([13, 10, 13, 10] : List Byte)
      (partBodyStr name value) = true := by
    have hshape2 : partBodyStr name value
        = ([13, 10] ++ charsToBytes (cdLineStr name)) ++ [13, 10, 13, 10]
            ++ (charsToBytes value ++ [13, 10]) := by
      rw [partBodyStr, hcrlf, hsep4]
      simp [List.append_assoc]
    rw [hshape2]
    exact containsSub_append_sep _ _ _
  have hascii : ∀ c ∈ cdLineStr name, c.toNat < 128 :=
    fun c hc => (cdLineStr_forall name hns c hc).1
  have hdec : asciiDecode ([13, 10] ++ charsToBytes (cdLineStr name))
      = '\x0d' :: '\n' :: cdLineStr name := by
    have h1310 : asciiDecode [13, 10] = ['\x0d', '\n'] := by decide
    rw [asciiDecode_append, asciiDecode_charsToBytes _ hascii, h1310]
    rfl
  obtain ⟨t1, ht1⟩ : ∃ t, cdLineStr name = 'C' :: t := by
    refine ⟨"ontent-Disposition: form-data; name=\"".data
      ++ (name ++ "\"".data), ?_⟩
    rw [cdLineStr,
      (show "Content-Disposition: form-data; name=\"".data
        = 'C' :: "ontent-Disposition: form-data; name=\"".data from by decide)]
    simp [List.append_assoc]
  have hquote_ne : name ++ "\"".data ≠ [] := by
    rw [(show "\"".data = ['"'] from by decide)]
    simp
  have hcd_last : (cdLineStr name).getLast? = some '"' := by
    rw [cdLineStr, List.append_assoc, getLast?_append_right _ _ hquote_ne,
      getLast?_append_right name _ (by decide)]
    decide
  have hstripHT : pyStripC ('\x0d' :: '\n' :: cdLineStr name)
      = cdLineStr name := by
    have hs := stripEnds_sandwich isPyWsChar ['\x0d', '\n'] (cdLineStr name) []
      (by decide) (by simp)
      (Or.inr ⟨⟨'C', by rw [ht1]; rfl, by decide⟩, ⟨'"', hcd_last, by decide⟩⟩)
    simpa [pyStripC] using hs
  have hno_nl : ∀ a ∈ cdLineStr name, a ≠ '\n' := by
    intro a ha he
    have h10 := (cdLineStr_forall name hns a ha).2.2
    rw [he] at h10
    exact h10 rfl
  have hsplitNL : splitChar '\n' (cdLineStr name) = [cdLineStr name] :=
    splitChar_of_not_mem _ _ hno_nl
  have hisCD : isPrefixB "Content-Disposition:".data (cdLineStr name)
      = true := by
    rw [cdLineStr,
      (show "Content-Disposition: form-data; name=\"".data
        = "Content-Disposition:".data ++ " form-data; name=\"".data
       from by decide), List.append_assoc, List.append_assoc]
    exact isPrefixB_append_self _ _
  have hsemi_shape : cdLineStr name
      = "Content-Disposition: form-data".data
          ++ ';' :: (" name=\"".data ++ (name ++ "\"".data)) := by
    rw [cdLineStr,
      (show "Content-Disposition: form-data; name=\"".data
        = "Content-Disposition: form-data".data ++ ';' :: " name=\"".data
       from by decide)]
    simp [List.append_assoc]
  have hP2_no_semi : ∀ a ∈ " name=\"".data ++ (name ++ "\"".data),
      a ≠ ';' := by
    intro a ha
    rcases List.mem_append.1 ha with h' | h'
    · exact (show ∀ a ∈ " name=\"".data, a ≠ ';' from by decide) a h'
    · rcases List.mem_append.1 h' with h2 | h2
      · exact (hns a h2).2.2.1
      · exact (show ∀ a ∈ "\"".data, a ≠ ';' from by decide) a h2
  have hsplitSemi : splitChar ';' (cdLineStr name)
      = ["Content-Disposition: form-data".data,
         " name=\"".data ++ (name ++ "\"".data)] := by
    rw [hsemi_shape, splitChar_append _ _ _ (by decide),
      splitChar_of_not_mem _ _ hP2_no_semi]
  have hitem1 : parse_header_item {} "Content-Disposition: form-data".data
      = ({} : PartHeaderInfo) := by rfl
  have hstrip2 : pyStripC (" name=\"".data ++ (name ++ "\"".data))
      = "name=\"".data ++ (name ++ "\"".data) := by
    have hsh : " name=\"".data ++ (name ++ "\"".data)
        = [' '] ++ ("name=\"".data ++ (name ++ "\"".data)) ++ [] := by
      rw [(show " name=\"".data = ' ' :: "name=\"".data from by decide)]
      simp
    rw [hsh]
    refine stripEnds_sandwich isPyWsChar [' '] _ [] (by decide) (by simp)
      (Or.inr ⟨⟨'n', ?_, by decide⟩, ⟨'"', ?_, by decide⟩⟩)
    · rw [(show "name=\"".data = 'n' :: "ame=\"".data from by decide)]
      rfl
    · rw [getLast?_append_right _ _ hquote_ne,
        getLast?_append_right name _ (by decide)]
      decide
  have hitem2 : parse_header_item ({} : PartHeaderInfo)
      (" name=\"".data ++ (name ++ "\"".data))
      = { field_name := some name } := by
    have hpre : isPrefixB "name=\"".data
        ("name=\"".data ++ (name ++ "\"".data)) = true :=
      isPrefixB_append_self _ _
    have hdrop : ("name=\"".data ++ (name ++ "\"".data)).drop 6
        = name ++ "\"".data := by
      rw [(show (6 : Nat) = ("name=\"".data).length from by decide),
        List.drop_left]
    have hdroplast : (name ++ "\"".data).dropLast = name := by
      rw [(show "\"".data = ['"'] from by decide)]
      exact dropLast_append_singleton name _
    simp only [parse_header_item, hstrip2, hpre, if_true]
    rw [hdrop, hdroplast]
  have hfold : List.foldl parse_header_item ({} : PartHeaderInfo)
      (splitChar ';' (cdLineStr name)) = { field_name := some name } := by
    rw [hsplitSemi]
    simp only [List.foldl_cons, List.foldl_nil, hitem1, hitem2]
  have hstripline : pyStripC (cdLineStr name) = cdLineStr name := by
    have hs := stripEnds_sandwich isPyWsChar [] (cdLineStr name) []
      (by simp) (by simp)
      (Or.inr ⟨⟨'C', by rw [ht1]; rfl, by decide⟩, ⟨'"', hcd_last, by decide⟩⟩)
    simpa [pyStripC] using hs
  have hline : parse_header_line ({} : PartHeaderInfo) (cdLineStr name)
      = { field_name := some name } := by
    simp only [parse_header_line, hstripline, hisCD, if_true]
    exact hfold
  have hVlast : charsToBytes value = [] ∨ ∃ y,
      (charsToBytes value).getLast? = some y ∧
        ([13, 10] : List Byte).contains y = false := by
    rcases hgl : value.getLast? with _ | c
    · left
      rw [List.getLast?_eq_none_iff] at hgl
      rw [hgl]
      rfl
    · right
      refine ⟨c.toNat, ?_, ?_⟩
      · rw [getLast?_charsToBytes, hgl]
        rfl
      · have hws := stripStable_getLast hvs c hgl
        have hn13 : c ≠ '\x0d' := fun he => by
          rw [he] at hws
          exact absurd hws (by decide)
        have hn10 : c ≠ '\n' := fun he => by
          rw [he] at hws
          exact absurd hws (by decide)
        refine contains_pair_false _ _ _ ?_ ?_
        · intro he
          exact toNat_ne_of_ne hn13 (he.trans rfl)
        · intro he
          exact toNat_ne_of_ne hn10 (he.trans rfl)
  have hVlast10 : charsToBytes value = [] ∨ ∃ y,
      (charsToBytes value).getLast? = some y ∧
        ([10] : List Byte).contains y = false := by
    rcases hVlast with h | ⟨y, hy, hcontainsy⟩
    · left; exact h
    · right
      refine ⟨y, hy, ?_⟩
      refine contains_single_false _ _ ?_
      intro he
      rw [he] at hcontainsy
      simp at hcontainsy
  have hbody : rstripSet [10] (rstripSet [13, 10]
      (charsToBytes value ++ [13, 10])) = charsToBytes value := by
    rw [rstripSet_append_in _ _ _ (by decide),
      rstripSet_eq_self _ _ hVlast, rstripSet_eq_self _ _ hVlast10]
  have hdecV : pyStripC (asciiDecode (charsToBytes value)) = value := by
    rw [asciiDecode_charsToBytes _ hva, pyStripC_of_stripStable _ hvs]
  have hnametruthy : optCharsTruthy (some name) = true := by
    cases name with
    | nil => exact absurd rfl hn
    | cons a l => rfl
  have hfiletruthy : optCharsTruthy (none : Option (List Char)) = false := rfl
  simp only [process_part, hcondfalse, Bool.false_eq_true, if_false,
    hsep4, hcontains, if_true, hsplit, hdec, hstripHT, hsplitNL,
    List.foldl_cons, List.foldl_nil, hline, hnametruthy, hfiletruthy,
    Option.getD_some, hbody, hdecV]

lemma process_part_file (fields : List (List Char × MPField))
    (name filename ct : List Char) (content : List Byte)
    (hn : name ≠ []) (hns : headerSafe name)
    (hf : filename ≠ []) (hfs : headerSafe filename)
    (hct : ct ≠ [])
    (hcta : ∀ c ∈ ct, c.toNat < 128 ∧ c.toNat ≠ 13 ∧ c.toNat ≠ 10)
    (hcts : stripStable ct = true)
    (hcl : ∀ y, content.getLast? = some y → y ≠ 13 ∧ y ≠ 10) :
    process_part fields (partBodyFile name filename ct content)
      = dict_insert name (MPField.file filename ct content) fields := by
  have hcrlf : strBytes "\r\n" = [13, 10] := by decide
  have hsep4 : strBytes "\r\n\r\n" = [13, 10, 13, 10] := by decide
  have hq : charsToBytes "\"".data = [34] := by decide
  have hr : charsToBytes "Content-Disposition: form-data; name=\"".data
      = 67 :: charsToBytes "ontent-Disposition: form-data; name=\"".data := by
    decide
  obtain ⟨rF, hrF⟩ : ∃ r, charsToBytes (cdLineFile name filename)
      = 67 :: r := by
    refine ⟨charsToBytes "ontent-Disposition: form-data; name=\"".data
      ++ (charsToBytes name ++ (charsToBytes "\"; filename=\"".data
      ++ (charsToBytes filename ++ [34]))), ?_⟩
    rw [cdLineFile]
    simp only [charsToBytes_append]
    rw [hr, hq]
    simp [List.append_assoc]
  obtain ⟨rT, hrT⟩ : ∃ r, charsToBytes (ctLine ct) = 67 :: r := by
    refine ⟨charsToBytes "ontent-Type: ".data ++ charsToBytes ct, ?_⟩
    rw [ctLine]
    simp only [charsToBytes_append]
    rw [(show charsToBytes "Content-Type: ".data
      = 67 :: charsToBytes "ontent-Type: ".data from by decide)]
    rfl
  obtain ⟨d, hd⟩ : ∃ d, ct.getLast? = some d := by
    cases hc : ct with
    | nil => exact absurd hc hct
    | cons e t =>
      exact ⟨(e :: t).getLast (List.cons_ne_nil _ _),
        List.getLast?_eq_getLast _ _⟩
  have hdws : isPyWsChar d = false := stripStable_getLast hcts d hd
  have hd13 : d ≠ '\x0d' := fun he => by
    rw [he] at hdws
    exact absurd hdws (by decide)
  have hd10 : d ≠ '\n' := fun he => by
    rw [he] at hdws
    exact absurd hdws (by decide)
  obtain ⟨e0, he0⟩ : ∃ e, ct.head? = some e := by
    cases hc : ct with
    | nil => exact absurd hc hct
    | cons e t => exact ⟨e, rfl⟩
  have he0ws : isPyWsChar e0 = false := stripStable_head hcts e0 he0
  -- the strip test
  have hshape1 : partBodyFile name filename ct content
      = [13, 10] ++ 67 :: (rF ++ ([13, 10] ++ (charsToBytes (ctLine ct)
          ++ ([13, 10, 13, 10] ++ (content ++ [13, 10]))))) := by
    rw [partBodyFile, hcrlf, hsep4, hrF]
    simp [List.append_assoc]
  obtain ⟨Y1, hY1⟩ := stripEnds_head isPyWsByte [13, 10] 67
    (rF ++ ([13, 10] ++ (charsToBytes (ctLine ct)
      ++ ([13, 10, 13, 10] ++ (content ++ [13, 10])))))
    (by decide) (by decide)
  have hstrip : pyStripB (partBodyFile name filename ct content)
      = 67 :: Y1 := by
    rw [pyStripB, hshape1]
    exact hY1
  have hcondfalse :
      (decide (pyStripB (partBodyFile name filename ct content)
          = strBytes "--")
        || decide (pyStripB (partBodyFile name filename ct content)
          = [])) = false := by
    rw [hstrip, (show strBytes "--" = [45, 45] from by decide)]
    simp
  -- headers section, marker-free for the separator
  have hL1f : containsSub ([13, 10, 13, 10] : List Byte)
      (charsToBytes (cdLineFile name filename)) = false := by
    refine not_containsSub_of_head_not_mem _ _ (by decide) ?_
    intro s0 hs0 hmem
    cases hs0
    have h2 := bytes_forall_of_chars _ (cdLineFile_forall name filename hns hfs)
      13 hmem
    exact h2.1 rfl
  have hL2f : containsSub ([13, 10, 13, 10] : List Byte)
      (charsToBytes (ctLine ct)) = false := by
    refine not_containsSub_of_head_not_mem _ _ (by decide) ?_
    intro s0 hs0 hmem
    cases hs0
    have h2 := bytes_forall_of_chars _ (ctLine_forall ct hcta) 13 hmem
    exact h2.1 rfl
  have hT : containsSub ([13, 10, 13, 10] : List Byte)
      ([13, 10] ++ charsToBytes (ctLine ct)) = false := by
    refine not_containsSub_append_head _ _ _ (by decide) hL2f ?_
    intro b hb
    rw [hrT] at hb
    cases hb
    decide
  have hcd_last : (cdLineFile name filename).getLast? = some '"' := by
    rw [cdLineFile, getLast?_append_right _ _ (by decide)]
    decide
  have hT2 : containsSub ([13, 10, 13, 10] : List Byte)
      (charsToBytes (cdLineFile name filename)
        ++ ([13, 10] ++ charsToBytes (ctLine ct))) = false := by
    refine not_containsSub_append_last _ _ _ hL1f hT ?_
    intro a ha
    rw [getLast?_charsToBytes, hcd_last] at ha
    have ha2 : a = 34 := by simpa using ha.symm
    rw [ha2]
    decide
  have hAnc : containsSub ([13, 10, 13, 10] : List Byte)
      ([13, 10] ++ (charsToBytes (cdLineFile name filename)
        ++ ([13, 10] ++ charsToBytes (ctLine ct)))) = false := by
    refine not_containsSub_append_head _ _ _ (by decide) hT2 ?_
    intro b hb
    rw [hrF] at hb
    rw [List.cons_append] at hb
    cases hb
    decide
  have hctLine_ne : charsToBytes (ctLine ct) ≠ [] := by
    rw [hrT]
    simp
  have hAgetLast : ([13, 10] ++ (charsToBytes (cdLineFile name filename)
      ++ ([13, 10] ++ charsToBytes (ctLine ct)))).getLast?
      = some d.toNat := by
    rw [getLast?_append_right _ _ (by
        intro hcontra
        rcases List.append_eq_nil.1 hcontra with ⟨_, h2⟩
        rcases List.append_eq_nil.1 h2 with ⟨_, h3⟩
        exact hctLine_ne h3),
      getLast?_append_right _ _ (by
        intro hcontra
        rcases List.append_eq_nil.1 hcontra with ⟨_, h3⟩
        exact hctLine_ne h3),
      getLast?_append_right _ _ hctLine_ne,
      getLast?_charsToBytes, ctLine,
      getLast?_append_right _ _ hct, hd]
    rfl
  have hAlast : ∀ c, ([13, 10] ++ (charsToBytes (cdLineFile name filename)
      ++ ([13, 10] ++ charsToBytes (ctLine ct)))).getLast? = some c →
        c ∉ ([13, 10, 13, 10] : List Byte) := by
    intro c hc
    rw [hAgetLast] at hc
    cases hc
    intro hmem
    rcases List.mem_cons.1 hmem with h | hmem2
    · exact toNat_ne_of_ne hd13 (h.trans rfl)
    · rcases List.mem_cons.1 hmem2 with h | hmem3
      · exact toNat_ne_of_ne hd10 (h.trans rfl)
      · rcases List.mem_cons.1 hmem3 with h | hmem4
        · exact toNat_ne_of_ne hd13 (h.trans rfl)
        · rcases List.mem_cons.1 hmem4 with h | hmem5
          · exact toNat_ne_of_ne hd10 (h.trans rfl)
          · cases hmem5
  have hsplit : split_once_go ([13, 10, 13, 10] : List Byte)
      (partBodyFile name filename ct content)
      = some ([13, 10] ++ (charsToBytes (cdLineFile name filename)
          ++ ([13, 10] ++ charsToBytes (ctLine ct))),
          content ++ [13, 10]) := by
    have hshape2 : partBodyFile name filename ct content
        = ([13, 10] ++ (charsToBytes (cdLineFile name filename)
            ++ ([13, 10] ++ charsToBytes (ctLine ct)))) ++ [13, 10, 13, 10]
            ++ (content ++ [13, 10]) := by
      rw [partBodyFile, hcrlf, hsep4]
      simp [List.append_assoc]
    rw [hshape2]
    exact split_once_append _ _ _ hAnc hAlast
  have hcontains : containsSub ([13, 10, 13, 10] : List Byte)
      (partBodyFile name filename ct content) = true := by
    have hshape2 : partBodyFile name filename ct content
        = ([13, 10] ++ (charsToBytes (cdLineFile name filename)
            ++ ([13, 10] ++ charsToBytes (ctLine ct)))) ++ [13, 10, 13, 10]
            ++ (content ++ [13, 10]) := by
      rw [partBodyFile, hcrlf, hsep4]
      simp [List.append_assoc]
    rw [hshape2]
    exact containsSub_append_sep _ _ _
  -- decode the headers
  have hdecA : asciiDecode ([13, 10] ++ (charsToBytes (cdLineFile name filename)
      ++ ([13, 10] ++ charsToBytes (ctLine ct))))
      = '\x0d' :: '\n' :: (cdLineFile name filename
          ++ ('\x0d' :: '\n' :: ctLine ct)) := by
    have h1310 : asciiDecode [13, 10] = ['\x0d', '\n'] := by decide
    simp only [asciiDecode_append]
    rw [asciiDecode_charsToBytes _
        (fun c hc => (cdLineFile_forall name filename hns hfs c hc).1),
      asciiDecode_charsToBytes _ (fun c hc => (ctLine_forall ct hcta c hc).1),
      h1310]
    rfl
  obtain ⟨t2, ht2⟩ : ∃ t, cdLineFile name filename = 'C' :: t := by
    refine ⟨"ontent-Disposition: form-data; name=\"".data
      ++ (name ++ ("\"; filename=\"".data ++ (filename ++ "\"".data))), ?_⟩
    rw [cdLineFile,
      (show "Content-Disposition: form-data; name=\"".data
        = 'C' :: "ontent-Disposition: form-data; name=\"".data from by decide)]
    simp [List.append_assoc]
  have hctLast : (ctLine ct).getLast? = some d := by
    rw [ctLine, getLast?_append_right _ _ hct]
    exact hd
  have hcore_last : (cdLineFile name filename
      ++ ('\x0d' :: '\n' :: ctLine ct)).getLast? = some d := by
    rw [getLast?_append_right _ _ (by simp),
      (show ('\x0d' :: '\n' :: ctLine ct) = ['\x0d', '\n'] ++ ctLine ct
        from rfl),
      getLast?_append_right _ _ (by
        intro hcontra
        rw [hcontra] at hctLast
        cases hctLast)]
    exact hctLast
  have hstripHT : pyStripC ('\x0d' :: '\n' :: (cdLineFile name filename
      ++ ('\x0d' :: '\n' :: ctLine ct)))
      = cdLineFile name filename ++ ('\x0d' :: '\n' :: ctLine ct) := by
    have hs := stripEnds_sandwich isPyWsChar ['\x0d', '\n']
      (cdLineFile name filename ++ ('\x0d' :: '\n' :: ctLine ct)) []
      (by decide) (by simp)
      (Or.inr ⟨⟨'C', by rw [ht2]; rfl, by decide⟩, ⟨d, hcore_last, hdws⟩⟩)
    simpa [pyStripC] using hs
  -- split the header text on newlines
  have hcd_no_nl : ∀ a ∈ cdLineFile name filename ++ ['\x0d'], a ≠ '\n' := by
    intro a ha
    rcases List.mem_append.1 ha with h' | h'
    · intro he
      have h10 := (cdLineFile_forall name filename hns hfs a h').2.2
      rw [he] at h10
      exact h10 rfl
    · intro he
      rw [he] at h'
      exact absurd h' (by decide)
  have hct_no_nl : ∀ a ∈ ctLine ct, a ≠ '\n' := by
    intro a ha he
    have h10 := (ctLine_forall ct hcta a ha).2.2
    rw [he] at h10
    exact h10 rfl
  have hsplitNL : splitChar '\n' (cdLineFile name filename
      ++ ('\x0d' :: '\n' :: ctLine ct))
      = [cdLineFile name filename ++ ['\x0d'], ctLine ct] := by
    have hsh : cdLineFile name filename ++ ('\x0d' :: '\n' :: ctLine ct)
        = (cdLineFile name filename ++ ['\x0d']) ++ '\n' :: ctLine ct := by
      simp
    rw [hsh, splitChar_append _ _ _ hcd_no_nl,
      splitChar_of_not_mem _ _ hct_no_nl]
  -- first header line
  have hstripline1 : pyStripC (cdLineFile name filename ++ ['\x0d'])
      = cdLineFile name filename := by
    have hs := stripEnds_sandwich isPyWsChar [] (cdLineFile name filename)
      ['\x0d'] (by simp) (by decide)
      (Or.inr ⟨⟨'C', by rw [ht2]; rfl, by decide⟩, ⟨'"', hcd_last, by decide⟩⟩)
    simpa [pyStripC] using hs
  have hisCD : isPrefixB "Content-Disposition:".data (cdLineFile name filename)
      = true := by
    rw [cdLineFile,
      (show "Content-Disposition: form-data; name=\"".data
        = "Content-Disposition:".data ++ " form-data; name=\"".data
       from by decide)]
    simp only [List.append_assoc]
    exact isPrefixB_append_self _ _
  have hsemi_shape : cdLineFile name filename
      = "Content-Disposition: form-data".data
          ++ ';' :: ((" name=\"".data ++ (name ++ "\"".data))
          ++ ';' :: (" filename=\"".data ++ (filename ++ "\"".data))) := by
    rw [cdLineFile,
      (show "Content-Disposition: form-data; name=\"".data
        = "Content-Disposition: form-data".data ++ ';' :: " name=\"".data
       from by decide),
      (show "\"; filename=\"".data
        = "\"".data ++ ';' :: " filename=\"".data from by decide)]
    simp [List.append_assoc]
  have hquote_ne : name ++ "\"".data ≠ [] := by
    rw [(show "\"".data = ['"'] from by decide)]
    simp
  have hquote_ne2 : filename ++ "\"".data ≠ [] := by
    rw [(show "\"".data = ['"'] from by decide)]
    simp
  have hP2_no_semi : ∀ a ∈ " name=\"".data ++ (name ++ "\"".data),
      a ≠ ';' := by
    intro a ha
    rcases List.mem_append.1 ha with h' | h'
    · exact (show ∀ a ∈ " name=\"".data, a ≠ ';' from by decide) a h'
    · rcases List.mem_append.1 h' with h2 | h2
      · exact (hns a h2).2.2.1
      · exact (show ∀ a ∈ "\"".data, a ≠ ';' from by decide) a h2
  have hP3_no_semi : ∀ a ∈ " filename=\"".data ++ (filename ++ "\"".data),
      a ≠ ';' := by
    intro a ha
    rcases List.mem_append.1 ha with h' | h'
    · exact (show ∀ a ∈ " filename=\"".data, a ≠ ';' from by decide) a h'
    · rcases List.mem_append.1 h' with h2 | h2
      · exact (hfs a h2).2.2.1
      · exact (show ∀ a ∈ "\"".data, a ≠ ';' from by decide) a h2
  have hsplitSemi : splitChar ';' (cdLineFile name filename)
      = ["Content-Disposition: form-data".data,
         " name=\"".data ++ (name ++ "\"".data),
         " filename=\"".data ++ (filename ++ "\"".data)] := by
    rw [hsemi_shape, splitChar_append _ _ _ (by decide),
      splitChar_append _ _ _ hP2_no_semi,
      splitChar_of_not_mem _ _ hP3_no_semi]
  have hitem1 : parse_header_item {} "Content-Disposition: form-data".data
      = ({} : PartHeaderInfo) := by rfl
  have hstrip2 : pyStripC (" name=\"".data ++ (name ++ "\"".data))
      = "name=\"".data ++ (name ++ "\"".data) := by
    have hsh : " name=\"".data ++ (name ++ "\"".data)
        = [' '] ++ ("name=\"".data ++ (name ++ "\"".data)) ++ [] := by
      rw [(show " name=\"".data = ' ' :: "name=\"".data from by decide)]
      simp
    rw [hsh]
    refine stripEnds_sandwich isPyWsChar [' '] _ [] (by decide) (by simp)
      (Or.inr ⟨⟨'n', ?_, by decide⟩, ⟨'"', ?_, by decide⟩⟩)
    · rw [(show "name=\"".data = 'n' :: "ame=\"".data from by decide)]
      rfl
    · rw [getLast?_append_right _ _ hquote_ne,
        getLast?_append_right name _ (by decide)]
      decide
  have hitem2 : parse_header_item ({} : PartHeaderInfo)
      (" name=\"".data ++ (name ++ "\"".data))
      = { field_name := some name } := by
    have hpre : isPrefixB "name=\"".data
        ("name=\"".data ++ (name ++ "\"".data)) = true :=
      isPrefixB_append_self _ _
    have hdrop : ("name=\"".data ++ (name ++ "\"".data)).drop 6
        = name ++ "\"".data := by
      rw [(show (6 : Nat) = ("name=\"".data).length from by decide),
        List.drop_left]
    have hdroplast : (name ++ "\"".data).dropLast = name := by
      rw [(show "\"".data = ['"'] from by decide)]
      exact dropLast_append_singleton name _
    simp only [parse_header_item, hstrip2, hpre, if_true]
    rw [hdrop, hdroplast]
  have hstrip3 : pyStripC (" filename=\"".data ++ (filename ++ "\"".data))
      = "filename=\"".data ++ (filename ++ "\"".data) := by
    have hsh : " filename=\"".data ++ (filename ++ "\"".data)
        = [' '] ++ ("filename=\"".data ++ (filename ++ "\"".data)) ++ [] := by
      rw [(show " filename=\"".data = ' ' :: "filename=\"".data from by decide)]
      simp
    rw [hsh]
    refine stripEnds_sandwich isPyWsChar [' '] _ [] (by decide) (by simp)
      (Or.inr ⟨⟨'f', ?_, by decide⟩, ⟨'"', ?_, by decide⟩⟩)
    · rw [(show "filename=\"".data = 'f' :: "ilename=\"".data from by decide)]
      rfl
    · rw [getLast?_append_right _ _ hquote_ne2,
        getLast?_append_right filename _ (by decide)]
      decide
  have hitem3 : parse_header_item ({ field_name := some name } : PartHeaderInfo)
      (" filename=\"".data ++ (filename ++ "\"".data))
      = { field_name := some name, filename := some filename } := by
    have hnotname : isPrefixB "name=\"".data
        ("filename=\"".data ++ (filename ++ "\"".data)) = false := by
      rw [(show "name=\"".data = 'n' :: "ame=\"".data from by decide),
        (show "filename=\"".data = 'f' :: "ilename=\"".data from by decide),
        List.cons_append, isPrefixB, if_neg (by decide)]
    have hpre : isPrefixB "filename=\"".data
        ("filename=\"".data ++ (filename ++ "\"".data)) = true :=
      isPrefixB_append_self _ _
    have hdrop : ("filename=\"".data ++ (filename ++ "\"".data)).drop 10
        = filename ++ "\"".data := by
      rw [(show (10 : Nat) = ("filename=\"".data).length from by decide),
        List.drop_left]
    have hdroplast : (filename ++ "\"".data).dropLast = filename := by
      rw [(show "\"".data = ['"'] from by decide)]
      exact dropLast_append_singleton filename _
    simp only [parse_header_item, hstrip3, hnotname, Bool.false_eq_true,
      if_false, hpre, if_true]
    rw [hdrop, hdroplast]
  have hline1 : parse_header_line ({} : PartHeaderInfo)
      (cdLineFile name filename ++ ['\x0d'])
      = { field_name := some name, filename := some filename } := by
    simp only [parse_header_line, hstripline1, hisCD, if_true, hsplitSemi,
      List.foldl_cons, List.foldl_nil, hitem1, hitem2, hitem3]
  -- second header line
  have hctline_head : ctLine ct = 'C' :: ("ontent-Type: ".data ++ ct) := by
    rw [ctLine,
      (show "Content-Type: ".data = 'C' :: "ontent-Type: ".data from by decide)]
    rfl
  have hstripline2 : pyStripC (ctLine ct) = ctLine ct := by
    have hs := stripEnds_sandwich isPyWsChar [] (ctLine ct) []
      (by simp) (by simp)
      (Or.inr ⟨⟨'C', by rw [hctline_head]; rfl, by decide⟩,
        ⟨d, hctLast, hdws⟩⟩)
    simpa [pyStripC] using hs
  have hnotCD : isPrefixB "Content-Disposition:".data (ctLine ct)
      = false := by
    rw [(show "Content-Disposition:".data
        = "Content-".data ++ "Disposition:".data from by decide),
      (show ctLine ct = "Content-".data ++ ("Type: ".data ++ ct) from by
        rw [ctLine, (show "Content-Type: ".data
          = "Content-".data ++ "Type: ".data from by decide)]
        simp [List.append_assoc]),
      isPrefixB_append_cancel,
      (show "Disposition:".data = 'D' :: "isposition:".data from by decide),
      (show "Type: ".data = 'T' :: "ype: ".data from by decide),
      List.cons_append, isPrefixB, if_neg (by decide)]
  have hisCT : isPrefixB "Content-Type:".data (ctLine ct) = true := by
    rw [(show ctLine ct = "Content-Type:".data ++ (' ' :: ct) from by
      rw [ctLine, (show "Content-Type: ".data
        = "Content-Type:".data ++ [' '] from by decide)]
      simp)]
    exact isPrefixB_append_self _ _
  have hdrop13 : (ctLine ct).drop 13 = ' ' :: ct := by
    rw [(show ctLine ct = "Content-Type:".data ++ (' ' :: ct) from by
      rw [ctLine, (show "Content-Type: ".data
        = "Content-Type:".data ++ [' '] from by decide)]
      simp),
      (show (13 : Nat) = ("Content-Type:".data).length from by decide),
      List.drop_left]
  have hstripct : pyStripC (' ' :: ct) = ct := by
    have hsh : (' ' :: ct) = [' '] ++ ct ++ [] := by simp
    rw [hsh]
    exact stripEnds_sandwich isPyWsChar [' '] ct [] (by decide) (by simp)
      (Or.inr ⟨⟨e0, he0, he0ws⟩, ⟨d, hd, hdws⟩⟩)
  have hline2 : parse_header_line
      ({ field_name := some name, filename := some filename } : PartHeaderInfo)
      (ctLine ct)
      = { field_name := some name, filename := some filename,
          content_type_field := some ct } := by
    simp only [parse_header_line, hstripline2, hnotCD, Bool.false_eq_true,
      if_false, hisCT, if_true, hdrop13, hstripct]
  -- body section
  have hClast : content = [] ∨ ∃ y,
      content.getLast? = some y ∧
        ([13, 10] : List Byte).contains y = false := by
    rcases hgl : content.getLast? with _ | y
    · left
      rw [List.getLast?_eq_none_iff] at hgl
      exact hgl
    · right
      obtain ⟨h13, h10⟩ := hcl y hgl
      exact ⟨y, rfl, contains_pair_false _ _ _ h13 h10⟩
  have hClast10 : content = [] ∨ ∃ y,
      content.getLast? = some y ∧ ([10] : List Byte).contains y = false := by
    rcases hgl : content.getLast? with _ | y
    · left
      rw [List.getLast?_eq_none_iff] at hgl
      exact hgl
    · right
      obtain ⟨h13, h10⟩ := hcl y hgl
      exact ⟨y, rfl, contains_single_false _ _ h10⟩
  have hbodyC : rstripSet [10] (rstripSet [13, 10] (content ++ [13, 10]))
      = content := by
    rw [rstripSet_append_in _ _ _ (by decide),
      rstripSet_eq_self _ _ hClast, rstripSet_eq_self _ _ hClast10]
  have hnametruthy : optCharsTruthy (some name) = true := by
    cases name with
    | nil => exact absurd rfl hn
    | cons a l => rfl
  have hfntruthy : optCharsTruthy (some filename) = true := by
    cases filename with
    | nil => exact absurd rfl hf
    | cons a l => rfl
  have hcttruthy : optCharsTruthy (some ct) = true := by
    cases hc : ct with
    | nil => exact absurd hc hct
    | cons a l => rfl
  simp only [process_part, hcondfalse, Bool.false_eq_true, if_false,
    hsep4, hcontains, if_true, hsplit, hdecA, hstripHT, hsplitNL,
    List.foldl_cons, List.foldl_nil, hline1, hline2, hnametruthy,
    hfntruthy, hcttruthy, Option.getD_some, hbodyC]

lemma process_part_closing (fields : List (List Char × MPField)) :
    process_part fields (strBytes "--\r\n") = fields := by
  have hcond : (decide (pyStripB (strBytes "--\r\n") = strBytes "--")
      || decide (pyStripB (strBytes "--\r\n") = [])) = true := by decide
  simp only [process_part, hcond, if_true]

lemma foldl_process_parts (fileName fileFilename fileCType : List Char)
    (fileContent : List Byte)
    (hn : fileName ≠ []) (hns : headerSafe fileName)
    (hf : fileFilename ≠ []) (hfs : headerSafe fileFilename)
    (hct : fileCType ≠ [])
    (hcta : ∀ c ∈ fileCType, c.toNat < 128 ∧ c.toNat ≠ 13 ∧ c.toNat ≠ 10)
    (hcts : stripStable fileCType = true)
    (hcl : ∀ y, fileContent.getLast? = some y → y ≠ 13 ∧ y ≠ 10) :
    ∀ (sf : List (List Char × List Char)) (acc : List (List Char × MPField)),
      (∀ nv ∈ sf, nv.1 ≠ [] ∧ headerSafe nv.1 ∧
        (∀ c ∈ nv.2, c.toNat < 128) ∧ stripStable nv.2 = true) →
      (sf.map Prod.fst ++ [fileName]).Nodup →
      (∀ p ∈ acc, ∀ m ∈ sf.map Prod.fst ++ [fileName], p.1 ≠ m) →
      ((sf.map (fun nv => partBodyStr nv.1 nv.2))
          ++ [partBodyFile fileName fileFilename fileCType fileContent,
              strBytes "--\r\n"]).foldl process_part acc
        = acc ++ sf.map (fun nv => (nv.1, MPField.str nv.2))
            ++ [(fileName, MPField.file fileFilename fileCType fileContent)] := by
  intro sf
  induction sf with
  | nil =>
    intro acc hsf hnodup hacc
    simp only [List.map_nil, List.nil_append, List.foldl_cons, List.foldl_nil]
    rw [process_part_file acc fileName fileFilename fileCType fileContent
        hn hns hf hfs hct hcta hcts hcl,
      dict_insert_fresh _ _ _
        (fun p hp => hacc p hp fileName (List.mem_singleton.2 rfl)),
      process_part_closing]
    simp
  | cons nv sfs ih =>
    intro acc hsf hnodup hacc
    obtain ⟨n, v⟩ := nv
    obtain ⟨hn1, hns1, hva1, hvs1⟩ := hsf (n, v) (List.mem_cons_self _ _)
    have hmem_head : n ∈ ((n, v) :: sfs).map Prod.fst ++ [fileName] := by
      simp
    have hfresh : ∀ p ∈ acc, p.1 ≠ n :=
      fun p hp => hacc p hp n hmem_head
    have hn_not : n ∉ sfs.map Prod.fst ++ [fileName] := by
      have h2 := hnodup
      simp only [List.map_cons, List.cons_append, List.nodup_cons] at h2
      exact h2.1
    simp only [List.map_cons, List.cons_append, List.foldl_cons]
    rw [process_part_str acc n v hn1 hns1 hva1 hvs1,
      dict_insert_fresh _ _ _ hfresh]
    rw [ih (acc ++ [(n, MPField.str v)])
      (fun q hq => hsf q (List.mem_cons_of_mem _ hq))
      (by
        have h2 := hnodup
        simp only [List.map_cons, List.cons_append, List.nodup_cons] at h2
        exact h2.2)
      (by
        intro p hp m hm
        rcases List.mem_append.1 hp with hp1 | hp2
        · exact hacc p hp1 m (List.mem_cons_of_mem _ hm)
        · have hpn : p = (n, MPField.str v) := List.mem_singleton.1 hp2
          rw [hpn]
          intro he
          have he2 : n = m := he
          rw [← he2] at hm
          exact hn_not hm)]
    simp [List.append_assoc]

lemma extract_boundary_std (boundary : List Char) (hb : boundaryOK boundary) :
    extract_boundary ("multipart/form-data; boundary=".data ++ boundary)
      = some boundary := by
  obtain ⟨hne, hsafe, hlastws⟩ := hb
  obtain ⟨d, hd⟩ : ∃ d, boundary.getLast? = some d := by
    cases hc : boundary with
    | nil => exact absurd hc hne
    | cons e t =>
      exact ⟨(e :: t).getLast (List.cons_ne_nil _ _),
        List.getLast?_eq_getLast _ _⟩
  have hdws : isPyWsChar d = false := by
    have h2 := option_all_some hlastws d hd
    simpa using h2
  obtain ⟨e0, he0⟩ : ∃ e, boundary.head? = some e := by
    cases hc : boundary with
    | nil => exact absurd hc hne
    | cons e t => exact ⟨e, rfl⟩
  have hsplitSemi : splitChar ';' ("multipart/form-data; boundary=".data
      ++ boundary)
      = ["multipart/form-data".data, " boundary=".data ++ boundary] := by
    have hshape : "multipart/form-data; boundary=".data ++ boundary
        = "multipart/form-data".data ++ ';' :: (" boundary=".data ++ boundary) := by
      rw [(show "multipart/form-data; boundary=".data
          = "multipart/form-data".data ++ ';' :: " boundary=".data
         from by decide)]
      simp [List.append_assoc]
    rw [hshape, splitChar_append _ _ _ (by decide),
      splitChar_of_not_mem _ _ (by
        intro a ha
        rcases List.mem_append.1 ha with h' | h'
        · exact (show ∀ a ∈ " boundary=".data, a ≠ ';' from by decide) a h'
        · exact (hsafe a h').2.2.1)]
  have hstrip1 : pyStripC "multipart/form-data".data
      = "multipart/form-data".data := by decide
  have hstrip2 : pyStripC (" boundary=".data ++ boundary)
      = "boundary=".data ++ boundary := by
    have hsh : " boundary=".data ++ boundary
        = [' '] ++ ("boundary=".data ++ boundary) ++ [] := by
      rw [(show " boundary=".data = ' ' :: "boundary=".data from by decide)]
      simp
    rw [hsh]
    refine stripEnds_sandwich isPyWsChar [' '] _ [] (by decide) (by simp)
      (Or.inr ⟨⟨'b', ?_, by decide⟩, ⟨d, ?_, hdws⟩⟩)
    · rw [(show "boundary=".data = 'b' :: "oundary=".data from by decide)]
      rfl
    · rw [getLast?_append_right _ _ hne]
      exact hd
  have hfind1 : isPrefixB "boundary=".data (pyStripC "multipart/form-data".data)
      = false := by decide
  have hfind2 : isPrefixB "boundary=".data ("boundary=".data ++ boundary)
      = true := isPrefixB_append_self _ _
  have hdrop9 : ("boundary=".data ++ boundary).drop 9 = boundary := by
    rw [(show (9 : Nat) = ("boundary=".data).length from by decide),
      List.drop_left]
  have hstripq : stripEnds (fun c => c = '"') boundary = boundary := by
    have hs := stripEnds_sandwich (fun c : Char => c = '"') [] boundary []
      (by simp) (by simp)
      (Or.inr ⟨⟨e0, he0, ?_⟩, ⟨d, hd, ?_⟩⟩)
    · simpa using hs
    · have he0mem : e0 ∈ boundary := by
        cases hcb : boundary with
        | nil => rw [hcb] at he0; cases he0
        | cons x t =>
          rw [hcb] at he0
          cases he0
          exact List.mem_cons_self _ _
      simp [(hsafe e0 he0mem).2.1]
    · have hdmem : d ∈ boundary := by
        cases hcb : boundary with
        | nil => exact absurd hcb hne
        | cons x t =>
          have hne2 : (x :: t) ≠ ([] : List Char) := List.cons_ne_nil _ _
          rw [hcb] at hd
          have h3 := (List.getLast?_eq_getLast _ hne2).symm.trans hd
          have h4 : (x :: t).getLast hne2 = d := by
            injection h3
          rw [← h4]
          exact List.getLast_mem hne2
      simp [(hsafe d hdmem).2.1]
  rw [extract_boundary, hsplitSemi, List.map_cons, List.map_cons,
    List.map_nil, hstrip1, hstrip2,
    List.find?_cons_of_neg _ (by
      intro hcontra
      exact absurd hcontra (by decide)),
    List.find?_cons_of_pos _ hfind2, Option.map_some']
  rw [hdrop9, hstripq]

/-- C2 (amended): decoding a standard multipart/form-data encoding with
`parse_multipart_manually` recovers exactly the encoded field set — every
string field as a `.str` entry and the audio file part with its filename,
content type and byte content — provided the boundary is well formed, the
field names are distinct and header-safe, values are ASCII and
strip-stable, the boundary marker occurs in no header line, value or file
content, and the file content does not itself end in a CR or LF byte
(the parser strips every trailing CR and LF from the part body, not just
the single CRLF added by the encoder). -/
theorem parse_multipart_roundtrip
    (boundary : List Char) (strFields : List (List Char × List Char))
    (fileName fileFilename fileCType : List Char) (fileContent : List Byte)
    (hb : boundaryOK boundary)
    (hstr : ∀ nv ∈ strFields, strFieldOK (markerOf boundary) nv)
    (hfile : fileFieldOK (markerOf boundary) fileName fileFilename fileCType
      fileContent)
    (hnodup : (strFields.map Prod.fst ++ [fileName]).Nodup) :
    parse_multipart_manually
        (encode_multipart boundary strFields fileName fileFilename fileCType
          fileContent).1
        (encode_multipart boundary strFields fileName fileFilename fileCType
          fileContent).2
      = strFields.map (fun nv => (nv.1, MPField.str nv.2))
          ++ [(fileName, MPField.file fileFilename fileCType fileContent)] := by
  obtain ⟨hbne, hbsafe, hblast⟩ := hb
  obtain ⟨hfn, hfns, hff, hffs, hcdl, hctOK, hcont, hclastA⟩ := hfile
  obtain ⟨hctne, hcta, hcts, hctl⟩ := hctOK
  have hclast : ∀ y, fileContent.getLast? = some y → y ≠ 13 ∧ y ≠ 10 := by
    intro y hy
    exact of_decide_eq_true (option_all_some hclastA y hy)
  have h13 : (13 : Byte) ∉ markerOf boundary := cr_not_mem_markerOf _ hbsafe
  have h10 : (10 : Byte) ∉ markerOf boundary := lf_not_mem_markerOf _ hbsafe
  have hmne : markerOf boundary ≠ [] := markerOf_ne_nil boundary
  have hbodies : ∀ b ∈ (strFields.map (fun nv => partBodyStr nv.1 nv.2)
      ++ [partBodyFile fileName fileFilename fileCType fileContent]),
      containsSub (markerOf boundary) b = false ∧
      ∀ c, b.getLast? = some c → c ∉ markerOf boundary := by
    intro b hbmem
    rcases List.mem_append.1 hbmem with hmem | hmem
    · obtain ⟨nv, hnv, rfl⟩ := List.mem_map.1 hmem
      obtain ⟨_, _, _, _, hcd1, hV1⟩ := hstr nv hnv
      refine ⟨part_body_str_marker_free _ (head?_markerOf boundary) h13 h10
        _ _ hcd1 hV1, ?_⟩
      intro c hc
      rw [part_body_str_getLast nv.1 nv.2 c hc]
      exact h10
    · have hb2 := List.mem_singleton.1 hmem
      rw [hb2]
      refine ⟨part_body_file_marker_free _ (head?_markerOf boundary) h13 h10
        _ _ _ _ hcdl hctl hcont, ?_⟩
      intro c hc
      rw [part_body_file_getLast _ _ _ _ c hc]
      exact h10
  have htail := not_containsSub_closing boundary hbne hbsafe
  have hsplitAll := pySplit_standard_body (markerOf boundary) hmne
    (strFields.map (fun nv => partBodyStr nv.1 nv.2)
      ++ [partBodyFile fileName fileFilename fileCType fileContent])
    (strBytes "--\r\n") hbodies htail
  have hfst : (encode_multipart boundary strFields fileName fileFilename
      fileCType fileContent).1
      = "multipart/form-data; boundary=".data ++ boundary := rfl
  have hbody2 : (encode_multipart boundary strFields fileName fileFilename
      fileCType fileContent).2
      = ((strFields.map (fun nv => partBodyStr nv.1 nv.2)
          ++ [partBodyFile fileName fileFilename fileCType fileContent]).map
            (fun b => markerOf boundary ++ b)).flatten
        ++ (markerOf boundary ++ strBytes "--\r\n") := by
    simp [encode_multipart, encode_part_str, encode_part_file, markerOf,
      List.map_append, List.flatten_append, List.map_map, Function.comp_def,
      List.append_assoc]
  have hpre : isPrefixB "multipart/form-data".data
      ("multipart/form-data; boundary=".data ++ boundary) = true := by
    rw [(show "multipart/form-data; boundary=".data
        = "multipart/form-data".data ++ "; boundary=".data from by decide),
      List.append_assoc]
    exact isPrefixB_append_self _ _
  have hstr2 : ∀ nv ∈ strFields, nv.1 ≠ [] ∧ headerSafe nv.1 ∧
      (∀ c ∈ nv.2, c.toNat < 128) ∧ stripStable nv.2 = true := by
    intro nv hnv
    obtain ⟨h1, h2, h3, h4, _, _⟩ := hstr nv hnv
    exact ⟨h1, h2, h3, h4⟩
  rw [hfst, hbody2, parse_multipart_manually]
  simp only [hpre, Bool.not_true, Bool.false_eq_true, if_false,
    extract_boundary_std boundary ⟨hbne, hbsafe, hblast⟩]
  rw [if_neg hbne]
  simp only [(show strBytes "--" ++ charsToBytes boundary
    = markerOf boundary from rfl)]
  rw [hsplitAll]
  simp only [List.drop_succ_cons, List.drop_zero]
  rw [(show (strFields.map (fun nv => partBodyStr nv.1 nv.2)
      ++ [partBodyFile fileName fileFilename fileCType fileContent])
      ++ [strBytes "--\r\n"]
      = strFields.map (fun nv => partBodyStr nv.1 nv.2)
        ++ [partBodyFile fileName fileFilename fileCType fileContent,
            strBytes "--\r\n"] from by simp)]
  rw [foldl_process_parts fileName fileFilename fileCType fileContent
    hfn hfns hff hffs hctne hcta hcts hclast strFields [] hstr2 hnodup
    (by intro p hp; cases hp)]
  simp

/-- C2: witness instantiating the amended round-trip theorem at a concrete
boundary, one string field and a concrete audio file part. -/
theorem parse_multipart_roundtrip_witness :
    parse_multipart_manually
        (encode_multipart "XBOUND".data [("key".data, "abc".data)]
          "audio".data "a.mp3".data "audio/mpeg".data [73, 68, 51, 0]).1
        (encode_multipart "XBOUND".data [("key".data, "abc".data)]
          "audio".data "a.mp3".data "audio/mpeg".data [73, 68, 51, 0]).2
      = [("key".data, MPField.str "abc".data),
         ("audio".data, MPField.file "a.mp3".data "audio/mpeg".data
           [73, 68, 51, 0])] :=
  parse_multipart_roundtrip "XBOUND".data [("key".data, "abc".data)]
    "audio".data "a.mp3".data "audio/mpeg".data [73, 68, 51, 0]
    (by decide) (by decide) (by decide) (by decide)

/-- C2: counterexample to the literal claim — the parser strips every
trailing CR and LF byte of the part body (`rstrip` with byte sets), not
only the single CRLF the encoder appended, so a file whose content itself
ends in a newline byte is not recovered byte-identically: encoded content
[73, 68, 51, 0, 10] decodes to [73, 68, 51, 0]. -/
theorem parse_multipart_strips_trailing_newline :
    parse_multipart_manually
        (encode_multipart "XBOUND".data [] "audio".data "a.mp3".data
          "audio/mpeg".data [73, 68, 51, 0, 10]).1
        (encode_multipart "XBOUND".data [] "audio".data "a.mp3".data
          "audio/mpeg".data [73, 68, 51, 0, 10]).2
      = [("audio".data, MPField.file "a.mp3".data "audio/mpeg".data
          [73, 68, 51, 0])]
    ∧ ([73, 68, 51, 0] : List Byte) ≠ [73, 68, 51, 0, 10] := by
  constructor
  · decide
  · decide

end StableSquirrel
